import Mathlib

/-!
# rept: recurrence expressions and job setup

A shallow embedding of `main.go` of the `rept` job runner: `NormString`,
`ParseTime`, `Schedule`, `SetupJobs`, `Run`, `Execute` and the error
constructors, together with
the parts of the Go standard library they call (`strings.ToLower`,
`strings.TrimSpace`, the regular expression `\s+`, `strings.SplitN`,
`strconv.Atoi`, 64-bit `time.Duration` arithmetic).

Conventions of the embedding:

* a Go string is the list of its runes (`Str`); the strings reaching the parser
  have been through `strings.ToLower`, whose result is valid UTF-8;
* machine integers are `Int`, with an explicit wrap to 64 bits where the
  program multiplies;
* an instant is the number of nanoseconds since the Unix epoch, a
  `time.Duration` is a number of nanoseconds;
* a `*gocron.Scheduler` is recorded as the zone it was created with and the
  configuration calls made on it, in order;
* what the program reads from its surroundings (the Unicode case table, the
  local zone, the clock, the verdict of the scheduling library on a finished
  schedule) is gathered in `Runtime`, and what `Run` reads from the machine
  (the configuration file, the log directory) in `Disk`.
-/

namespace Rept

/-! ## Data model -/

/-- A Go string, as the sequence of its runes. -/
abbrev Str := List Char

/-- The two zones the program ever uses: `time.Local` and `time.UTC`. -/
inductive Location where
  | Local
  | UTC
deriving DecidableEq, Repr

/-- One configuration call made on a `*gocron.Scheduler`. -/
inductive Call where
  | EveryDuration (d : Int)
  | EveryInt (n : Int)
  | StartAt (t : Int)
  | Days
  | Months (dayOfTheMonth : Int)
  | Weeks
  | Monday
  | Tuesday
  | Wednesday
  | Thursday
  | Friday
  | Saturday
  | Sunday
  | At (t : Str)
deriving DecidableEq, Repr

/-- A `*gocron.Scheduler`: the zone given to `gocron.NewScheduler` and the
calls made on it since, oldest first. -/
structure Scheduler where
  location : Location
  calls : List Call
deriving DecidableEq, Repr

deriving instance DecidableEq for Except

/-- What the program reads from its surroundings.

* `lower`: `unicode.ToLower` on the runes from U+0080 on (the Unicode tables
  are not part of the program);
* `localMidnight`: for an instant `t`, the instant
  `time.Date(y, m, d, 0, 0, 0, 0, time.Local)` where `y`, `m`, `d` is the date
  of `t` in `time.Local` (the zone database is not part of the program);
* `now`: the reading of `time.Now()` inside the `ParseTime` call made for the
  job of the given name;
* `doError`: the error `scheduler.Do` returns for a finished schedule, `none`
  when the library accepts it. -/
structure Runtime where
  lower : Char → Char
  localMidnight : Int → Int
  now : Str → Int
  doError : Scheduler → Option Str

/-- The type `Job` of `main.go`. -/
structure Job where
  Cmd : List Str
  Every : Str
  At : Str
  DayOfMonth : Int
  Timezone : Str
deriving DecidableEq, Repr

/-- The type `Options` of `main.go`. -/
structure Options where
  LogPath : Str
  KeepLogsDays : Nat
  Timezone : Str
deriving DecidableEq, Repr

/-- The type `Config` of `main.go`. The map `Jobs` is kept as the list of its
entries in the order in which `range` visits them. -/
structure Config where
  Options : Options
  Jobs : List (Str × Job)
deriving DecidableEq, Repr

/-! ## Standard-library functions -/

/-- Go's `unicode.ToLower`: ASCII letters are handled directly, the other
runes go through the case table. -/
def ToLowerRune (lower : Char → Char) (c : Char) : Char :=
  if c.toNat < 128 then
    if 65 ≤ c.toNat ∧ c.toNat ≤ 90 then Char.ofNat (c.toNat + 32) else c
  else lower c

/-- Go's `strings.ToLower`. -/
def ToLower (lower : Char → Char) (s : Str) : Str :=
  s.map (ToLowerRune lower)

/-- Go's `unicode.IsSpace`: the runes with the Unicode White_Space property. -/
def IsSpace (c : Char) : Bool :=
  decide (c.toNat = 9 ∨ c.toNat = 10 ∨ c.toNat = 11 ∨ c.toNat = 12 ∨ c.toNat = 13
    ∨ c.toNat = 32 ∨ c.toNat = 0x85 ∨ c.toNat = 0xA0 ∨ c.toNat = 0x1680
    ∨ (0x2000 ≤ c.toNat ∧ c.toNat ≤ 0x200A) ∨ c.toNat = 0x2028 ∨ c.toNat = 0x2029
    ∨ c.toNat = 0x202F ∨ c.toNat = 0x205F ∨ c.toNat = 0x3000)

/-- Go's `strings.TrimSpace`. -/
def TrimSpace (s : Str) : Str :=
  (s.dropWhile IsSpace).rdropWhile IsSpace

/-- The class `\s` of Go's `regexp`: tab, newline, form feed, carriage return
and space. -/
def IsReSpace (c : Char) : Bool :=
  decide (c.toNat = 9 ∨ c.toNat = 10 ∨ c.toNat = 12 ∨ c.toNat = 13 ∨ c.toNat = 32)

/-- Replacing every match of `\s+` by one space, scanning from the left;
`inRun` tells that the rune before the rest belongs to the current match. -/
def ReplaceRuns : Bool → Str → Str
  | _, [] => []
  | inRun, c :: cs =>
    if IsReSpace c then
      if inRun then ReplaceRuns true cs else ' ' :: ReplaceRuns true cs
    else c :: ReplaceRuns false cs

/-- The call `regexp.MustCompile("\\s+").ReplaceAllString(s, " ")`. -/
def ReplaceAllSpace (s : Str) : Str :=
  ReplaceRuns false s

/-- The value of a run of decimal digits, read from the left with the
accumulator `acc`; `none` when a rune is not a digit. -/
def DigitsValue : Nat → Str → Option Nat
  | acc, [] => some acc
  | acc, c :: cs =>
    if 48 ≤ c.toNat ∧ c.toNat ≤ 57 then DigitsValue (acc * 10 + (c.toNat - 48)) cs
    else none

/-- Go's `strconv.Atoi` on a 64-bit platform: an optional sign followed by at
least one decimal digit, the value within the range of `int`; `none` is the
case `err != nil`. -/
def Atoi (s : Str) : Option Int :=
  let neg : Bool := s.head? = some '-'
  let digits : Str := if s.head? = some '-' ∨ s.head? = some '+' then s.drop 1 else s
  if digits = [] then none
  else
    match DigitsValue 0 digits with
    | none => none
    | some n =>
      let v : Int := if neg then -(n : Int) else (n : Int)
      if -(2 : Int) ^ 63 ≤ v ∧ v < (2 : Int) ^ 63 then some v else none

/-- The call `strings.Contains(s, " ")`. -/
def ContainsSpace (s : Str) : Bool :=
  decide (' ' ∈ s)

/-- The call `strings.SplitN(s, " ", 2)` on a string that contains a space:
the text before the first space and the text after it. -/
def SplitN2 (s : Str) : Str × Str :=
  (s.takeWhile (fun c => c != ' '), (s.dropWhile (fun c => c != ' ')).drop 1)

/-- Multiplication of two `time.Duration` values: 64-bit, wrapping. -/
def MulDuration (a b : Int) : Int :=
  (a * b + 2 ^ 63) % 2 ^ 64 - 2 ^ 63

/-- The constant `time.Second`. -/
def Second : Int := 1000000000

/-- The constant `time.Minute`. -/
def Minute : Int := 60 * Second

/-- The constant `time.Hour`. -/
def Hour : Int := 60 * Minute

/-- The length of a calendar day in UTC. -/
def DayLength : Int := 24 * Hour

/-! ## The program -/

/-- The constant `ValidEvery`. -/
def ValidEvery : Str :=
  ("(valid values are 'second', 'minute', 'hour', 'day', 'week', " ++
    "'month' and 'monday' to 'sunday', optionally preceded by an integer)").toList

/-- The function `InvalidAtUseError`, as the message of the error. -/
def InvalidAtUseError (jobName every : Str) : Str :=
  "Job '".toList ++ jobName ++ "' has invalid use of 'At': 'Every' is set to '".toList
    ++ every ++ "'".toList

/-- The function `InvalidEveryError`, as the message of the error. -/
def InvalidEveryError (jobName every : Str) : Str :=
  "Job '".toList ++ jobName ++ "' has invalid value for 'Every': '".toList
    ++ every ++ "' ".toList ++ ValidEvery

/-- The function `NormString`. -/
def NormString (lower : Char → Char) (time : Str) : Str :=
  ReplaceAllSpace (TrimSpace (ToLower lower time))

/-- The sentinel that stands for "no At given". -/
def DefaultAt : Str := "__default__".toList

/-- The call `gocron.NewScheduler(timezone)`. -/
def NewScheduler (timezone : Location) : Scheduler :=
  { location := timezone, calls := [] }

/-- A configuration call on a scheduler. -/
def Scheduler.call (s : Scheduler) (c : Call) : Scheduler :=
  { s with calls := s.calls ++ [c] }

/-- The multiplier part of `ParseTime` (from `value := time.Duration(1)` to the
end of the `if`): the multiplier and the unit text, or the error returned. -/
def ParseMultiplier (jobName every : Str) : Except Str (Int × Str) :=
  if ContainsSpace every then
    match Atoi (SplitN2 every).1 with
    | none => .error (InvalidEveryError jobName every)
    | some valueInt => .ok (valueInt, (SplitN2 every).2)
  else .ok (1, every)

/-- The `switch every` of `ParseTime`, with the lines that prepare it: the
scheduler as configured by the matching case, or the error returned there. -/
def ConfigureUnit (rt : Runtime) (jobName : Str) (value : Int) (every atExpr : Str)
    (dayOfTheMonth : Int) (timezone : Location) : Except Str Scheduler :=
  let startAt := rt.localMidnight (rt.now jobName)
  let scheduler := NewScheduler timezone
  if every = "second".toList ∨ every = "seconds".toList then
    let scheduler := (scheduler.call (.EveryDuration (MulDuration value Second))).call
      (.StartAt startAt)
    if atExpr ≠ DefaultAt then .error (InvalidAtUseError jobName every) else .ok scheduler
  else if every = "minute".toList ∨ every = "minutes".toList then
    let scheduler := (scheduler.call (.EveryDuration (MulDuration value Minute))).call
      (.StartAt startAt)
    if atExpr ≠ DefaultAt then .error (InvalidAtUseError jobName every) else .ok scheduler
  else if every = "hour".toList ∨ every = "hours".toList then
    let scheduler := (scheduler.call (.EveryDuration (MulDuration value Hour))).call
      (.StartAt startAt)
    if atExpr ≠ DefaultAt then .error (InvalidAtUseError jobName every) else .ok scheduler
  else if every = "day".toList ∨ every = "days".toList then
    .ok ((scheduler.call (.EveryInt value)).call .Days)
  else if every = "month".toList ∨ every = "months".toList then
    .ok ((scheduler.call (.EveryInt value)).call (.Months dayOfTheMonth))
  else if every = "monday".toList ∨ every = "mondays".toList then
    .ok (((scheduler.call (.EveryInt value)).call .Weeks).call .Monday)
  else if every = "tuesday".toList ∨ every = "tuesdays".toList then
    .ok (((scheduler.call (.EveryInt value)).call .Weeks).call .Tuesday)
  else if every = "wednesday".toList ∨ every = "wednesdays".toList then
    .ok (((scheduler.call (.EveryInt value)).call .Weeks).call .Wednesday)
  else if every = "thursday".toList ∨ every = "thursdays".toList then
    .ok (((scheduler.call (.EveryInt value)).call .Weeks).call .Thursday)
  else if every = "friday".toList ∨ every = "fridays".toList then
    .ok (((scheduler.call (.EveryInt value)).call .Weeks).call .Friday)
  else if every = "saturday".toList ∨ every = "saturdays".toList then
    .ok (((scheduler.call (.EveryInt value)).call .Weeks).call .Saturday)
  else if every = "week".toList ∨ every = "weeks".toList
      ∨ every = "sunday".toList ∨ every = "sundays".toList then
    .ok (((scheduler.call (.EveryInt value)).call .Weeks).call .Sunday)
  else .error (InvalidEveryError jobName every)

/-- The function `ParseTime`; `atExpr` is its parameter `at`. The three parts
follow the source: the multiplier, the `switch`, the final `At`. -/
def ParseTime (rt : Runtime) (jobName every atExpr : Str) (dayOfTheMonth : Int)
    (timezone : Location) : Except Str Scheduler :=
  let every := NormString rt.lower every
  let atExpr := NormString rt.lower atExpr
  match ParseMultiplier jobName every with
  | .error e => .error e
  | .ok (value, every) =>
    match ConfigureUnit rt jobName value every atExpr dayOfTheMonth timezone with
    | .error e => .error e
    | .ok scheduler =>
      if atExpr ≠ DefaultAt then .ok (scheduler.call (.At atExpr)) else .ok scheduler

/-- What the program does to its surroundings while it sets the jobs up. -/
inductive Event where
  | ScheduleCalled (jobName : Str) (job : Job)
  | ParseTimeCalled (jobName every atExpr : Str) (dayOfTheMonth : Int) (timezone : Location)
  | DoRegistered (scheduler : Scheduler) (jobName : Str) (cmd : List Str)
  | StartAsync (scheduler : Scheduler)
  | LogScheduled (jobName : Str)
deriving DecidableEq, Repr

/-- The function `Schedule`: the error it returns (`none` for `nil`) and what
it did. `scheduler.Do(Execute, jobName, job.Cmd)` is recorded by `DoRegistered`
when the library accepts the schedule; the text of the log line, which holds the
next run as the library prints it, is not recorded. -/
def Schedule (rt : Runtime) (jobName : Str) (job : Job) : Option Str × List Event :=
  let atExpr := if job.At = [] then DefaultAt else job.At
  let dayOfMonth := if job.DayOfMonth = 0 then 1 else job.DayOfMonth
  let timezone := if ToLower rt.lower job.Timezone = "utc".toList then Location.UTC
    else Location.Local
  let called := Event.ParseTimeCalled jobName job.Every atExpr dayOfMonth timezone
  match ParseTime rt jobName job.Every atExpr dayOfMonth timezone with
  | .error e => (some e, [called])
  | .ok scheduler =>
    match rt.doError scheduler with
    | some e => (some e, [called])
    | none =>
      (none, [called, .DoRegistered scheduler jobName job.Cmd, .StartAsync scheduler,
        .LogScheduled jobName])

/-- The loop of `SetupJobs` over the entries of `config.Jobs` still to visit. -/
def SetupJobsLoop (rt : Runtime) (options : Options) :
    List (Str × Job) → Option Str × List Event
  | [] => (none, [])
  | (jobName, job) :: rest =>
    if job.Cmd.length = 0 then
      (some ("Job '".toList ++ jobName
        ++ "' has no 'Cmd' property but it is required.".toList), [])
    else if job.Every = [] then
      (some ("Job '".toList ++ jobName
        ++ "' has no 'Every' property but it is required.".toList), [])
    else
      let job := if job.Timezone = [] then { job with Timezone := options.Timezone } else job
      match Schedule rt jobName job with
      | (some e, events) => (some e, .ScheduleCalled jobName job :: events)
      | (none, events) =>
        ((SetupJobsLoop rt options rest).1,
          .ScheduleCalled jobName job :: events ++ (SetupJobsLoop rt options rest).2)

/-- The function `SetupJobs`: the error it returns (`none` for `nil`) and what
it did, oldest first. -/
def SetupJobs (rt : Runtime) (config : Config) : Option Str × List Event :=
  SetupJobsLoop rt config.Options config.Jobs

/-- What `Run` reads from the machine it runs on.

* `readConfig`: the outcome of `ParseConfig` for a path, that is of opening the
  file and decoding its TOML text into a `Config` (with the jobs in the order in
  which they will be visited), or the error of either step;
* `openLog`: the error of `os.MkdirAll` or of `rotatelogs.New` in `SetupLogger`
  for a log path and a number of days, `none` when both succeed. -/
structure Disk where
  readConfig : Str → Except Str Config
  openLog : Str → Nat → Option Str

/-- What `Run` does, oldest first: reading the configuration, setting the
logger up, and what `SetupJobs` does. -/
inductive RunEvent where
  | ParseConfigCalled (configPath : Str)
  | SetupLoggerCalled (logPath : Str) (keepFor : Nat)
  | Setup (event : Event)
deriving DecidableEq, Repr

/-- The function `ParseConfig`. -/
def ParseConfig (disk : Disk) (configPath : Str) : Except Str Config :=
  disk.readConfig configPath

/-- The function `SetupLogger`: the error it returns, `none` for `nil`. -/
def SetupLogger (disk : Disk) (logPath : Str) (keepFor : Nat) : Option Str :=
  let logPath := if logPath = [] then "/var/log/rept/rept.log".toList else logPath
  let keepFor := if keepFor = 0 then 7 else keepFor
  disk.openLog logPath keepFor

/-- The function `SetupOptions`. -/
def SetupOptions (disk : Disk) (config : Config) : Option Str :=
  SetupLogger disk config.Options.LogPath config.Options.KeepLogsDays

/-- The function `Run`: the error it returns (`none` for `nil`) and what it did;
the outer `none` is the run-time panic of `args[1]` on an empty argument list. -/
def Run (rt : Runtime) (disk : Disk) (args : List Str) :
    Option (Option Str × List RunEvent) :=
  if args.length = 1 then
    some (some ("No configuration file with jobs to run. " ++
      "Usage: rept <path/to/job_config.toml>").toList, [])
  else if args.length > 2 then
    some (some "Arguments not understood. Usage: rept <path/to/job_config.toml>".toList, [])
  else
    match args[1]? with
    | none => none
    | some configPath =>
      match ParseConfig disk configPath with
      | .error e => some (some e, [.ParseConfigCalled configPath])
      | .ok config =>
        if config.Jobs.length = 0 then
          some (some "The configuration has no jobs to run.".toList,
            [.ParseConfigCalled configPath])
        else
          match SetupOptions disk config with
          | some e =>
            some (some e, [.ParseConfigCalled configPath,
              .SetupLoggerCalled config.Options.LogPath config.Options.KeepLogsDays])
          | none =>
            some ((SetupJobs rt config).1,
              [.ParseConfigCalled configPath,
                .SetupLoggerCalled config.Options.LogPath config.Options.KeepLogsDays]
              ++ (SetupJobs rt config).2.map RunEvent.Setup)

/-- The text that the verb `%v` of `fmt` prints for a slice of strings. -/
def FormatSlice (xs : List Str) : Str :=
  "[".toList ++ (List.intersperse " ".toList xs).flatten ++ "]".toList

/-- The function `Execute`, with `output` the outcome of `proc.Output()` for a
program and its arguments: the messages logged, and the program and arguments
given to `exec.Command`; the latter is `none` when `cmd[0]` is out of range,
which is a run-time panic. -/
def Execute (output : Str → List Str → Except Str Str) (jobName : Str) (cmd : List Str) :
    List Str × Option (Str × List Str) :=
  let executing := "Executing job '".toList ++ jobName ++ "'. Running command ".toList
    ++ FormatSlice cmd ++ "\n".toList
  match cmd with
  | [] => ([executing], none)
  | prog :: arguments =>
    match output prog arguments with
    | .error err =>
      ([executing, "ERROR in job '".toList ++ jobName ++ "':\n".toList ++ err ++ "\n".toList],
        some (prog, arguments))
    | .ok out =>
      ([executing, "Job '".toList ++ jobName ++ "' succeeded with output:\n".toList ++ out
          ++ "\n".toList],
        some (prog, arguments))

/-! ## The next run of a schedule -/

/-- The interval of a schedule built with `Every(d)` for a duration `d`. -/
def Scheduler.interval? (s : Scheduler) : Option Int :=
  s.calls.findSome? fun c => match c with
    | .EveryDuration d => some d
    | _ => none

/-- The start of the calendar day of an instant in a zone: in UTC the instant
less what has elapsed of its day, in `time.Local` what the runtime gives. -/
def ZoneMidnight (rt : Runtime) : Location → Int → Int
  | .Local, t => rt.localMidnight t
  | .UTC, t => t - t % DayLength

/-- Modelled from the spec: the Next-Run Calculator of section 4.2 for the
units second, minute and hour (the scheduling library that computes the next
run, gocron, is not among the sources). Section 4.2, all instants being taken in
the zone of the schedule: "advance from the start of the current calendar day by
successive multiples of multiplier units until the first result strictly after
after is found (equivalently: round after up to the next multiple of multiplier
units since midnight)". The day is the calendar day of `after`, the step is the
interval the schedule was configured with by `Every`; `none` when the schedule
has no such interval. The spec knows positive multipliers only: for a step that
is not positive the rounding is written down as it stands and nothing is
claimed of it. -/
def NextRun (rt : Runtime) (s : Scheduler) (after : Int) : Option Int :=
  match s.interval? with
  | some step =>
    some (ZoneMidnight rt s.location after
      + ((after - ZoneMidnight rt s.location after) / step + 1) * step)
  | none => none

/-! ## Worked examples -/

/-- A runtime for worked examples: no case pairs beyond ASCII, local zone UTC,
the clock at noon of 1 January 1970, a library that accepts every schedule. -/
def exampleRuntime : Runtime :=
  { lower := fun c => c
    localMidnight := fun t => t - t % DayLength
    now := fun _ => 12 * Hour
    doError := fun _ => none }

/-- A job that lists a directory every day. -/
def exampleJobA : Job :=
  { Cmd := ["ls".toList, "-lha".toList], Every := "Day".toList, At := "2:15".toList,
    DayOfMonth := 0, Timezone := [] }

/-- A job without command. -/
def exampleJobB : Job :=
  { Cmd := [], Every := "Tuesday".toList, At := "2:00".toList,
    DayOfMonth := 0, Timezone := [] }

/-- A configuration with a valid job visited before a job without command. -/
def exampleConfig : Config :=
  { Options := { LogPath := [], KeepLogsDays := 0, Timezone := [] }
    Jobs := [("BackupDaily".toList, exampleJobA), ("BackupWeekly".toList, exampleJobB)] }

/-! ## Vocabulary of the recurrence expressions -/

/-- The units of less than a day, singular and plural. -/
def SubDayUnits : List Str :=
  ["second".toList, "seconds".toList, "minute".toList, "minutes".toList,
    "hour".toList, "hours".toList]

/-- The 26 unit tokens: second, minute, hour, day, week, month and the seven
weekday names, each singular and plural. -/
def EveryVocabulary : List Str :=
  ["second".toList, "seconds".toList, "minute".toList, "minutes".toList,
    "hour".toList, "hours".toList, "day".toList, "days".toList,
    "week".toList, "weeks".toList, "month".toList, "months".toList,
    "monday".toList, "mondays".toList, "tuesday".toList, "tuesdays".toList,
    "wednesday".toList, "wednesdays".toList, "thursday".toList, "thursdays".toList,
    "friday".toList, "fridays".toList, "saturday".toList, "saturdays".toList,
    "sunday".toList, "sundays".toList]

/-- The length of a unit of less than a day, in nanoseconds: a second, a
minute (60 seconds) or an hour (3600 seconds). -/
def UnitLength (u : Str) : Int :=
  if u = "second".toList ∨ u = "seconds".toList then 1000000000
  else if u = "minute".toList ∨ u = "minutes".toList then 60 * 1000000000
  else 3600 * 1000000000

/-- A job that runs on day 40 of every month. -/
def exampleJobMonthly : Job :=
  { Cmd := ["ls".toList], Every := "month".toList, At := [],
    DayOfMonth := 40, Timezone := "UTC".toList }

/-- The day of the month handed to `ParseTime`, when the event is a call of
`ParseTime`. -/
def Event.dayOfTheMonth? : Event → Option Int
  | .ParseTimeCalled _ _ _ d _ => some d
  | _ => none

/-- The scheduler started, when the event is a `StartAsync`. -/
def Event.started? : Event → Option Scheduler
  | .StartAsync s => some s
  | _ => none

/-- The name of the job registered, when the event is a successful `Do`. -/
def Event.registered? : Event → Option Str
  | .DoRegistered _ jobName _ => some jobName
  | _ => none

/-- The timezone name in force for a job: its own when it is not empty,
otherwise the one of the global options. -/
def EffectiveTimezone (options : Options) (job : Job) : Str :=
  if job.Timezone = [] then options.Timezone else job.Timezone

/-- Two names are equal when the case of the letters is ignored. -/
def EqualIgnoringCase (lower : Char → Char) (a b : Str) : Prop :=
  ToLower lower a = ToLower lower b

/-- A string that neither starts nor ends with white space. -/
def Trimmed (s : Str) : Prop :=
  (∀ c, s.head? = some c → IsSpace c = false) ∧ (∀ c, s.getLast? = some c → IsSpace c = false)

/-- The unit tokens in the singular: second, minute, hour, day, week, month and
the seven weekday names. -/
def SingularUnits : List Str :=
  ["second".toList, "minute".toList, "hour".toList, "day".toList, "week".toList,
    "month".toList, "monday".toList, "tuesday".toList, "wednesday".toList,
    "thursday".toList, "friday".toList, "saturday".toList, "sunday".toList]

/-- A machine for worked examples: no configuration file can be read, the log
can be opened. -/
def exampleDisk : Disk :=
  { readConfig := fun _ => .error "open: no such file or directory".toList
    openLog := fun _ _ => none }

/-- Two texts differ only in letter case, in leading or trailing white space
(as `strings.TrimSpace` sees it), or in the length of inner runs of space, tab,
newline, form feed and carriage return (the class `\s` of the regular
expression): the relation generated by these three kinds of change. -/
inductive LayoutVariant (lower : Char → Char) : Str → Str → Prop where
  | letterCase (s t : Str) : EqualIgnoringCase lower s t → LayoutVariant lower s t
  | padding (s w1 w2 : Str) : (∀ c ∈ w1, IsSpace c = true) → (∀ c ∈ w2, IsSpace c = true) →
      LayoutVariant lower s (w1 ++ s ++ w2)
  | runLength (x y r1 r2 : Str) : r1 ≠ [] → r2 ≠ [] → (∀ c ∈ r1, IsReSpace c = true) →
      (∀ c ∈ r2, IsReSpace c = true) → LayoutVariant lower (x ++ r1 ++ y) (x ++ r2 ++ y)
  | symm (s t : Str) : LayoutVariant lower s t → LayoutVariant lower t s
  | trans (s t u : Str) : LayoutVariant lower s t → LayoutVariant lower t u →
      LayoutVariant lower s u

/-- A configuration whose only job has no timezone of its own, under a global
timezone name that is not a zone name. -/
def exampleConfigZone : Config :=
  { Options := { LogPath := [], KeepLogsDays := 0, Timezone := "Mars/Olympus".toList }
    Jobs := [("BackupDaily".toList, exampleJobA)] }

/-! ## Vocabulary of the next run -/

/-- The instant `t` is the smallest instant strictly greater than `after` of
the form `origin + k * step` with `k` a natural number. -/
def IsNextAligned (origin step after t : Int) : Prop :=
  after < t ∧ (∃ k : Nat, t = origin + k * step)
    ∧ ∀ t2 : Int, after < t2 → (∃ k : Nat, t2 = origin + k * step) → t ≤ t2

/-! ## Lemmas on the library functions -/

theorem MulDuration_of_fits (a b : Int) (h0 : 0 ≤ a * b) (h1 : a * b < 2 ^ 63) :
    MulDuration a b = a * b := by
  unfold MulDuration
  rw [Int.emod_eq_of_lt (by omega) (by omega)]
  omega

theorem IsNextAligned_round_up (origin step after : Int) (hstep : 0 < step)
    (horigin : origin ≤ after) :
    IsNextAligned origin step after (origin + ((after - origin) / step + 1) * step) := by
  have hq : 0 ≤ (after - origin) / step := Int.ediv_nonneg (by omega) hstep.le
  have hlt : after - origin < ((after - origin) / step + 1) * step :=
    Int.lt_ediv_add_one_mul_self _ hstep
  have hle : (after - origin) / step * step ≤ after - origin := Int.ediv_mul_le _ hstep.ne.symm
  refine ⟨by omega, ⟨((after - origin) / step + 1).toNat, ?_⟩, ?_⟩
  · rw [Int.toNat_of_nonneg (by omega)]
  · rintro t2 h2 ⟨k, rfl⟩
    by_contra hcon
    have hk : (k : Int) ≤ (after - origin) / step := by
      by_contra hk
      have : (after - origin) / step + 1 ≤ (k : Int) := by omega
      have := mul_le_mul_of_nonneg_right this hstep.le
      omega
    have := mul_le_mul_of_nonneg_right hk hstep.le
    omega

theorem DigitsValue_no_space (s : Str) (acc n : Nat) (h : DigitsValue acc s = some n) :
    ' ' ∉ s := by
  induction s generalizing acc with
  | nil => simp
  | cons c cs ih =>
    simp only [DigitsValue] at h
    split at h
    · rename_i hc
      have hne : c ≠ ' ' := by
        intro hsp
        rw [hsp] at hc
        revert hc
        decide
      simp only [List.mem_cons, not_or]
      exact ⟨fun h2 => hne h2.symm, ih _ h⟩
    · exact absurd h (by simp)

theorem Atoi_digits (s : Str) (n : Int) (h : Atoi s = some n) :
    ∃ m, DigitsValue 0
      (if s.head? = some '-' ∨ s.head? = some '+' then s.drop 1 else s) = some m := by
  unfold Atoi at h
  simp only at h
  generalize (if s.head? = some '-' ∨ s.head? = some '+' then s.drop 1 else s) = d at h
  by_cases hd : d = []
  · simp [hd] at h
  · rw [if_neg hd] at h
    cases hm : DigitsValue 0 d with
    | none => rw [hm] at h; simp at h
    | some m => exact ⟨m, rfl⟩

theorem Atoi_no_space (s : Str) (n : Int) (h : Atoi s = some n) : ' ' ∉ s := by
  obtain ⟨m, hm⟩ := Atoi_digits s n h
  have hd := DigitsValue_no_space _ _ _ hm
  cases s with
  | nil => simp
  | cons c cs =>
    by_cases hc : c = '-' ∨ c = '+'
    · have : (if (c :: cs).head? = some '-' ∨ (c :: cs).head? = some '+'
          then (c :: cs).drop 1 else c :: cs) = cs := by
        simp [hc]
      rw [this] at hd
      simp only [List.mem_cons, not_or]
      refine ⟨?_, hd⟩
      rcases hc with hc | hc <;> rw [hc] <;> decide
    · have : (if (c :: cs).head? = some '-' ∨ (c :: cs).head? = some '+'
          then (c :: cs).drop 1 else c :: cs) = c :: cs := by
        simp [hc]
      rw [this] at hd
      exact hd

theorem SplitN2_append (a b : Str) (h : ' ' ∉ a) : SplitN2 (a ++ ' ' :: b) = (a, b) := by
  induction a with
  | nil => simp [SplitN2, List.takeWhile, List.dropWhile]
  | cons c cs ih =>
    simp only [List.mem_cons, not_or] at h
    have hc : (c != ' ') = true := by
      simp only [bne_iff_ne, ne_eq]
      exact fun h2 => h.1 h2.symm
    have ih2 := ih h.2
    simp only [SplitN2, Prod.mk.injEq] at ih2
    simp only [SplitN2, List.cons_append, List.takeWhile_cons, List.dropWhile_cons, hc,
      if_true, Prod.mk.injEq, List.cons.injEq, true_and]
    exact ih2

theorem ParseMultiplier_unit (jobName u : Str) (h : ' ' ∉ u) :
    ParseMultiplier jobName u = .ok (1, u) := by
  simp [ParseMultiplier, ContainsSpace, h]

theorem ParseMultiplier_count (jobName nstr u : Str) (n : Int) (h : Atoi nstr = some n) :
    ParseMultiplier jobName (nstr ++ ' ' :: u) = .ok (n, u) := by
  have hs := SplitN2_append nstr u (Atoi_no_space nstr n h)
  simp [ParseMultiplier, ContainsSpace, hs, h]

/-! ## Lemmas on `ParseTime` -/

theorem ParseTime_of_multiplier (rt : Runtime) (jobName every atExpr : Str)
    (dayOfTheMonth : Int) (timezone : Location) (value : Int) (u : Str)
    (h : ParseMultiplier jobName (NormString rt.lower every) = .ok (value, u)) :
    ParseTime rt jobName every atExpr dayOfTheMonth timezone =
      match ConfigureUnit rt jobName value u (NormString rt.lower atExpr) dayOfTheMonth
        timezone with
      | .error e => .error e
      | .ok scheduler =>
        if NormString rt.lower atExpr ≠ DefaultAt then
          .ok (scheduler.call (.At (NormString rt.lower atExpr)))
        else .ok scheduler := by
  simp only [ParseTime, h]

theorem SubDayUnits_no_space : ∀ u ∈ SubDayUnits, ' ' ∉ u := by decide

theorem EveryVocabulary_no_space : ∀ u ∈ EveryVocabulary, ' ' ∉ u := by decide

theorem ConfigureUnit_subday (rt : Runtime) (jobName : Str) (value : Int) (u atExpr : Str)
    (dayOfTheMonth : Int) (timezone : Location) (hu : u ∈ SubDayUnits) :
    ConfigureUnit rt jobName value u atExpr dayOfTheMonth timezone =
      if atExpr ≠ DefaultAt then .error (InvalidAtUseError jobName u)
      else .ok { location := timezone
                 calls := [.EveryDuration (MulDuration value (UnitLength u)),
                   .StartAt (rt.localMidnight (rt.now jobName))] } := by
  simp only [SubDayUnits, List.mem_cons, List.mem_singleton, List.not_mem_nil, or_false] at hu
  rcases hu with h | h | h | h | h | h <;> subst h <;>
    simp +decide [ConfigureUnit, UnitLength, NewScheduler, Scheduler.call, Second, Minute, Hour]

theorem ConfigureUnit_invalid (rt : Runtime) (jobName : Str) (value : Int) (u atExpr : Str)
    (dayOfTheMonth : Int) (timezone : Location) (hu : u ∉ EveryVocabulary) :
    ConfigureUnit rt jobName value u atExpr dayOfTheMonth timezone =
      .error (InvalidEveryError jobName u) := by
  simp only [EveryVocabulary, List.mem_cons, List.mem_singleton, List.not_mem_nil, or_false,
    not_or] at hu
  simp only [ConfigureUnit, hu, or_self, if_false]

theorem ConfigureUnit_valid (rt : Runtime) (jobName : Str) (value : Int) (u atExpr : Str)
    (dayOfTheMonth : Int) (timezone : Location) (hu : u ∈ EveryVocabulary) :
    (∃ s, ConfigureUnit rt jobName value u atExpr dayOfTheMonth timezone = .ok s)
      ∨ ConfigureUnit rt jobName value u atExpr dayOfTheMonth timezone =
        .error (InvalidAtUseError jobName u) := by
  by_cases hat : atExpr = DefaultAt
  · left
    simp only [EveryVocabulary, List.mem_cons, List.mem_singleton, List.not_mem_nil,
      or_false] at hu
    rcases hu with h | h | h | h | h | h | h | h | h | h | h | h | h | h | h | h | h | h | h
      | h | h | h | h | h | h | h <;> subst h <;> simp +decide [ConfigureUnit, hat]
  · simp only [EveryVocabulary, List.mem_cons, List.mem_singleton, List.not_mem_nil,
      or_false] at hu
    rcases hu with h | h | h | h | h | h | h | h | h | h | h | h | h | h | h | h | h | h | h
      | h | h | h | h | h | h | h <;> subst h <;> simp +decide [ConfigureUnit, hat]

theorem InvalidAtUseError_ne_InvalidEveryError (jobName u x : Str) :
    InvalidAtUseError jobName u ≠ InvalidEveryError jobName x := by
  intro h
  have h1 : "' has invalid use of 'At': 'Every' is set to '".toList
      = "' has invalid ".toList ++ 'u' :: "se of 'At': 'Every' is set to '".toList := by
    decide
  have h2 : "' has invalid value for 'Every': '".toList
      = "' has invalid ".toList ++ 'v' :: "alue for 'Every': '".toList := by
    decide
  simp only [InvalidAtUseError, InvalidEveryError, h1, h2, List.append_assoc,
    List.append_cancel_left_eq, List.cons_append, List.cons.injEq] at h
  exact absurd h.1 (by decide)

/-! ## Errors of `ParseTime` -/

/-- C1: when the normalised `every` is a unit `u` among second(s), minute(s),
hour(s), alone or after an integer that `strconv.Atoi` accepts, `ParseTime`
returns an error exactly when the normalised `at` differs from the sentinel
`__default__`, and the message of that error is
`Job '<jobName>' has invalid use of 'At': 'Every' is set to '<u>'`. -/
theorem ParseTime_subday_at_error (rt : Runtime) (jobName every atExpr : Str)
    (dayOfTheMonth : Int) (timezone : Location) (nstr u : Str) (n : Int)
    (hu : u ∈ SubDayUnits)
    (hform : NormString rt.lower every = u
      ∨ (NormString rt.lower every = nstr ++ ' ' :: u ∧ Atoi nstr = some n)) :
    ((∃ e, ParseTime rt jobName every atExpr dayOfTheMonth timezone = .error e)
        ↔ NormString rt.lower atExpr ≠ "__default__".toList)
      ∧ ∀ e, ParseTime rt jobName every atExpr dayOfTheMonth timezone = .error e →
          e = "Job '".toList ++ jobName
            ++ "' has invalid use of 'At': 'Every' is set to '".toList ++ u ++ "'".toList := by
  have hpm : ∃ value, ParseMultiplier jobName (NormString rt.lower every) = .ok (value, u) := by
    rcases hform with h | ⟨h, hn⟩
    · exact ⟨1, by rw [h]; exact ParseMultiplier_unit jobName u (SubDayUnits_no_space u hu)⟩
    · exact ⟨n, by rw [h]; exact ParseMultiplier_count jobName nstr u n hn⟩
  obtain ⟨value, hpm⟩ := hpm
  rw [ParseTime_of_multiplier rt jobName every atExpr dayOfTheMonth timezone value u hpm,
    ConfigureUnit_subday rt jobName value u _ dayOfTheMonth timezone hu]
  have hd : "__default__".toList = DefaultAt := rfl
  rw [hd]
  by_cases hat : NormString rt.lower atExpr = DefaultAt
  · simp [hat]
  · simp only [ne_eq, hat, not_false_eq_true, if_true]
    refine ⟨⟨fun _ => trivial, fun _ => ⟨_, rfl⟩⟩, fun e he => ?_⟩
    injection he with he
    rw [← he]
    rfl

/-- A worked case of C1: `5 Minutes` with the `at` value `15`. -/
theorem ParseTime_subday_at_error_witness :
    "minutes".toList ∈ SubDayUnits
      ∧ NormString exampleRuntime.lower "5 Minutes".toList
          = "5".toList ++ ' ' :: "minutes".toList
      ∧ Atoi "5".toList = some 5
      ∧ ((∃ e, ParseTime exampleRuntime "JOB_NAME".toList "5 Minutes".toList "15".toList 0
            .Local = .error e)
          ↔ NormString exampleRuntime.lower "15".toList ≠ "__default__".toList)
      ∧ ∀ e, ParseTime exampleRuntime "JOB_NAME".toList "5 Minutes".toList "15".toList 0
            .Local = .error e →
          e = "Job '".toList ++ "JOB_NAME".toList
            ++ "' has invalid use of 'At': 'Every' is set to '".toList
            ++ "minutes".toList ++ "'".toList :=
  ⟨by decide, by decide, by decide,
    ParseTime_subday_at_error exampleRuntime "JOB_NAME".toList "5 Minutes".toList "15".toList 0
      .Local "5".toList "minutes".toList 5 (by decide) (Or.inr ⟨by decide, by decide⟩)⟩

/-- C2: when the normalised `every` is a text `u` without space, or `n u` with
`n` an integer that `strconv.Atoi` accepts, `ParseTime` fails with the
InvalidEvery error exactly when `u` is none of the 26 unit tokens, and the
message is then `Job '<jobName>' has invalid value for 'Every': '<u>' ` followed
by the text of `ValidEvery`. -/
theorem ParseTime_invalid_every_iff (rt : Runtime) (jobName every atExpr : Str)
    (dayOfTheMonth : Int) (timezone : Location) (nstr u : Str) (n : Int)
    (hform : (NormString rt.lower every = u ∧ ' ' ∉ u)
      ∨ (NormString rt.lower every = nstr ++ ' ' :: u ∧ Atoi nstr = some n)) :
    ((∃ x, ParseTime rt jobName every atExpr dayOfTheMonth timezone
          = .error (InvalidEveryError jobName x)) ↔ u ∉ EveryVocabulary)
      ∧ (u ∉ EveryVocabulary →
          ParseTime rt jobName every atExpr dayOfTheMonth timezone
            = .error ("Job '".toList ++ jobName ++ "' has invalid value for 'Every': '".toList
                ++ u ++ "' ".toList ++ ValidEvery)) := by
  have hpm : ∃ value, ParseMultiplier jobName (NormString rt.lower every) = .ok (value, u) := by
    rcases hform with ⟨h, hsp⟩ | ⟨h, hn⟩
    · exact ⟨1, by rw [h]; exact ParseMultiplier_unit jobName u hsp⟩
    · exact ⟨n, by rw [h]; exact ParseMultiplier_count jobName nstr u n hn⟩
  obtain ⟨value, hpm⟩ := hpm
  rw [ParseTime_of_multiplier rt jobName every atExpr dayOfTheMonth timezone value u hpm]
  have hbad : u ∉ EveryVocabulary →
      (match ConfigureUnit rt jobName value u (NormString rt.lower atExpr) dayOfTheMonth
          timezone with
        | .error e => (.error e : Except Str Scheduler)
        | .ok scheduler =>
          if NormString rt.lower atExpr ≠ DefaultAt then
            .ok (scheduler.call (.At (NormString rt.lower atExpr)))
          else .ok scheduler) = .error (InvalidEveryError jobName u) := by
    intro hu
    rw [ConfigureUnit_invalid rt jobName value u _ dayOfTheMonth timezone hu]
  refine ⟨⟨?_, fun hu => ⟨u, hbad hu⟩⟩, fun hu => hbad hu⟩
  rintro ⟨x, hx⟩ hu
  rcases ConfigureUnit_valid rt jobName value u (NormString rt.lower atExpr) dayOfTheMonth
    timezone hu with ⟨s, hs⟩ | herr
  · rw [hs] at hx
    by_cases hat : NormString rt.lower atExpr = DefaultAt <;> simp [hat] at hx
  · rw [herr] at hx
    simp only [Except.error.injEq] at hx
    exact InvalidAtUseError_ne_InvalidEveryError jobName u x hx

/-- A worked case of C2: `every = "daily"`. -/
theorem ParseTime_invalid_every_iff_witness :
    (NormString exampleRuntime.lower "daily".toList = "daily".toList
        ∧ ' ' ∉ "daily".toList)
      ∧ "daily".toList ∉ EveryVocabulary
      ∧ ParseTime exampleRuntime "JOB_NAME".toList "daily".toList "__default__".toList 0 .Local
        = .error ("Job '".toList ++ "JOB_NAME".toList
            ++ "' has invalid value for 'Every': '".toList
            ++ "daily".toList ++ "' ".toList ++ ValidEvery) :=
  ⟨by decide, by decide,
    (ParseTime_invalid_every_iff exampleRuntime "JOB_NAME".toList "daily".toList
      "__default__".toList 0 .Local [] "daily".toList 0 (Or.inl (by decide))).2 (by decide)⟩

/-- C3: when the normalised `every` contains a space and the text before its
first space is not an integer for `strconv.Atoi`, `ParseTime` fails with the
InvalidEvery error whose message quotes the whole normalised expression,
whatever the unit text, `at`, the day of the month and the zone are. -/
theorem ParseTime_multiplier_not_integer (rt : Runtime) (jobName every atExpr : Str)
    (dayOfTheMonth : Int) (timezone : Location)
    (hsp : ' ' ∈ NormString rt.lower every)
    (hint : Atoi ((NormString rt.lower every).takeWhile (fun c => c != ' ')) = none) :
    ParseTime rt jobName every atExpr dayOfTheMonth timezone
      = .error ("Job '".toList ++ jobName ++ "' has invalid value for 'Every': '".toList
          ++ NormString rt.lower every ++ "' ".toList ++ ValidEvery) := by
  have hpm : ParseMultiplier jobName (NormString rt.lower every)
      = .error (InvalidEveryError jobName (NormString rt.lower every)) := by
    simp only [ParseMultiplier, ContainsSpace, hsp, decide_True, if_true, SplitN2, hint]
  simp only [ParseTime, hpm]
  rfl

/-- A worked case of C3: `every = " second asd  "`. -/
theorem ParseTime_multiplier_not_integer_witness :
    ' ' ∈ NormString exampleRuntime.lower " second asd  ".toList
      ∧ Atoi ((NormString exampleRuntime.lower " second asd  ".toList).takeWhile
          (fun c => c != ' ')) = none
      ∧ ParseTime exampleRuntime "JOB_NAME".toList " second asd  ".toList
          "__default__".toList 0 .Local
        = .error ("Job '".toList ++ "JOB_NAME".toList
            ++ "' has invalid value for 'Every': '".toList
            ++ NormString exampleRuntime.lower " second asd  ".toList ++ "' ".toList
            ++ ValidEvery)
      ∧ NormString exampleRuntime.lower " second asd  ".toList = "second asd".toList :=
  ⟨by decide, by decide,
    ParseTime_multiplier_not_integer exampleRuntime "JOB_NAME".toList " second asd  ".toList
      "__default__".toList 0 .Local (by decide) (by decide), by decide⟩

/-! ## The next run of a schedule of less than a day -/

theorem UnitLength_pos (u : Str) : 0 < UnitLength u := by
  unfold UnitLength
  split
  · decide
  · split <;> decide

theorem ZoneMidnight_le (rt : Runtime) (timezone : Location) (after : Int)
    (hlocal : rt.localMidnight after ≤ after) : ZoneMidnight rt timezone after ≤ after := by
  cases timezone with
  | Local => exact hlocal
  | UTC =>
    have : 0 ≤ after % DayLength := Int.emod_nonneg _ (by decide)
    show after - after % DayLength ≤ after
    omega

/-- C4, as amended: for a multiplier `n` of at least 1 whose product with the
unit stays below 2^63 nanoseconds, a unit among second(s), minute(s), hour(s)
and no `at`, `ParseTime` builds a schedule whose next run after any instant
`after` is the smallest instant strictly greater than `after` of the form
midnight + `k * n` units, `k` a natural number, where midnight is the start of
the calendar day of `after` in the zone of the schedule (for the local zone the
runtime is asked to place that start not later than `after`). -/
theorem NextRun_subday_aligned (rt : Runtime) (jobName every atExpr : Str)
    (dayOfTheMonth : Int) (timezone : Location) (nstr u : Str) (n after : Int)
    (hu : u ∈ SubDayUnits)
    (hform : (NormString rt.lower every = u ∧ n = 1)
      ∨ (NormString rt.lower every = nstr ++ ' ' :: u ∧ Atoi nstr = some n))
    (hat : NormString rt.lower atExpr = "__default__".toList)
    (hn : 1 ≤ n) (hfit : n * UnitLength u < 2 ^ 63)
    (hlocal : rt.localMidnight after ≤ after) :
    ∃ s t, ParseTime rt jobName every atExpr dayOfTheMonth timezone = .ok s
      ∧ NextRun rt s after = some t
      ∧ IsNextAligned (ZoneMidnight rt timezone after) (n * UnitLength u) after t := by
  have hpm : ParseMultiplier jobName (NormString rt.lower every) = .ok (n, u) := by
    rcases hform with ⟨h, h1⟩ | ⟨h, hn⟩
    · rw [h, h1]; exact ParseMultiplier_unit jobName u (SubDayUnits_no_space u hu)
    · rw [h]; exact ParseMultiplier_count jobName nstr u n hn
  have hat2 : NormString rt.lower atExpr = DefaultAt := hat
  have hpos : 0 < n * UnitLength u := mul_pos (by omega) (UnitLength_pos u)
  have hmul : MulDuration n (UnitLength u) = n * UnitLength u :=
    MulDuration_of_fits _ _ hpos.le hfit
  refine ⟨{ location := timezone
            calls := [.EveryDuration (n * UnitLength u),
              .StartAt (rt.localMidnight (rt.now jobName))] }, _, ?_, ?_,
    IsNextAligned_round_up (ZoneMidnight rt timezone after) (n * UnitLength u) after hpos
      (ZoneMidnight_le rt timezone after hlocal)⟩
  · rw [ParseTime_of_multiplier rt jobName every atExpr dayOfTheMonth timezone n u hpm,
      ConfigureUnit_subday rt jobName n u _ dayOfTheMonth timezone hu]
    simp [hat2, hmul]
  · simp [NextRun, Scheduler.interval?, List.findSome?]

/-- A worked case of C4: every 15 seconds, asked at 12:00:07; the next run is
12:00:15. -/
theorem NextRun_subday_aligned_witness :
    "second".toList ∈ SubDayUnits
      ∧ NormString exampleRuntime.lower "15 second".toList
          = "15".toList ++ ' ' :: "second".toList
      ∧ Atoi "15".toList = some 15
      ∧ NormString exampleRuntime.lower "__default__".toList = "__default__".toList
      ∧ (15 : Int) * UnitLength "second".toList < 2 ^ 63
      ∧ exampleRuntime.localMidnight (12 * Hour + 7 * Second) ≤ 12 * Hour + 7 * Second
      ∧ NextRun exampleRuntime
          { location := .Local, calls := [.EveryDuration (15 * Second), .StartAt 0] }
          (12 * Hour + 7 * Second) = some (12 * Hour + 15 * Second)
      ∧ ∃ s t, ParseTime exampleRuntime "JOB_NAME".toList "15 second".toList
            "__default__".toList 0 .Local = .ok s
          ∧ NextRun exampleRuntime s (12 * Hour + 7 * Second) = some t
          ∧ IsNextAligned (ZoneMidnight exampleRuntime .Local (12 * Hour + 7 * Second))
              (15 * UnitLength "second".toList) (12 * Hour + 7 * Second) t :=
  ⟨by decide, by decide, by decide, by decide, by decide, by decide, by decide,
    NextRun_subday_aligned exampleRuntime "JOB_NAME".toList "15 second".toList
      "__default__".toList 0 .Local "15".toList "second".toList 15 (12 * Hour + 7 * Second)
      (by decide) (Or.inr ⟨by decide, by decide⟩) (by decide) (by decide) (by decide)
      (by decide)⟩

/-- C4 fails as stated. The multiplier 36028797018963969 is at least 1 and
`strconv.Atoi` accepts it, but its 64-bit product with `time.Second` wraps to
one second: `ParseTime` builds for `36028797018963969 seconds` the very schedule
it builds for `1 seconds`. Whatever next run that schedule yields after
12:00:07, it cannot be at once the smallest later instant in steps of 1 second
from midnight, which is 12:00:08, and the smallest later instant in steps of
36028797018963969 seconds from midnight. -/
theorem NextRun_subday_wrapped_multiplier :
    Atoi "36028797018963969".toList = some 36028797018963969
      ∧ ParseTime exampleRuntime "J".toList "36028797018963969 seconds".toList
          "__default__".toList 1 .Local
        = ParseTime exampleRuntime "J".toList "1 seconds".toList "__default__".toList 1 .Local
      ∧ ParseTime exampleRuntime "J".toList "36028797018963969 seconds".toList
          "__default__".toList 1 .Local
        = .ok { location := .Local, calls := [.EveryDuration Second, .StartAt 0] }
      ∧ NextRun exampleRuntime
          { location := .Local, calls := [.EveryDuration Second, .StartAt 0] }
          (12 * Hour + 7 * Second) = some (12 * Hour + 8 * Second)
      ∧ ∀ t : Int,
          ¬ (IsNextAligned (ZoneMidnight exampleRuntime .Local (12 * Hour + 7 * Second))
                (1 * UnitLength "seconds".toList) (12 * Hour + 7 * Second) t
            ∧ IsNextAligned (ZoneMidnight exampleRuntime .Local (12 * Hour + 7 * Second))
                (36028797018963969 * UnitLength "seconds".toList)
                (12 * Hour + 7 * Second) t) := by
  refine ⟨by decide, by decide, by decide, by decide, ?_⟩
  have hM : ZoneMidnight exampleRuntime .Local (12 * Hour + 7 * Second) = 0 := by decide
  have hU : UnitLength "seconds".toList = 1000000000 := by decide
  have hA : (12 * Hour + 7 * Second : Int) = 43207000000000 := by decide
  rw [hM, hU, hA]
  rintro t ⟨⟨_, _, hmin⟩, ⟨hgt, ⟨k, hk⟩, _⟩⟩
  have h1 := hmin 43208000000000 (by decide) ⟨43208, by decide⟩
  cases k with
  | zero =>
    simp only [Nat.cast_zero, zero_mul, add_zero] at hk
    omega
  | succ m =>
    have hm : (0 : Int) ≤ (m : Int) := Int.ofNat_nonneg m
    push_cast at hk
    omega

/-! ## Job setup -/

theorem Schedule_error_events (rt : Runtime) (jobName : Str) (job : Job) (e : Str)
    (h : (Schedule rt jobName job).1 = some e) :
    (Schedule rt jobName job).2.filterMap Event.registered? = []
      ∧ (Schedule rt jobName job).2.filterMap Event.started? = [] := by
  unfold Schedule at h ⊢
  simp only at h ⊢
  split
  · simp [Event.registered?, Event.started?]
  · rename_i s hs
    rw [hs] at h
    simp only at h
    split
    · simp [Event.registered?, Event.started?]
    · rename_i hd
      rw [hd] at h
      simp at h

theorem Schedule_ok_events (rt : Runtime) (jobName : Str) (job : Job)
    (h : (Schedule rt jobName job).1 = none) :
    (Schedule rt jobName job).2.filterMap Event.registered? = [jobName]
      ∧ ((Schedule rt jobName job).2.filterMap Event.started?).length = 1 := by
  unfold Schedule at h ⊢
  simp only at h ⊢
  split
  · rename_i e he
    rw [he] at h
    simp at h
  · rename_i s hs
    rw [hs] at h
    simp only at h
    split
    · rename_i e hd
      rw [hd] at h
      simp at h
    · simp [Event.registered?, Event.started?]

/-- C6: for a configuration whose only job is named `n`, `SetupJobs` returns
`Job 'n' has no 'Cmd' property but it is required.` when the job has an empty
`Cmd` (whatever its `Every`), and `Job 'n' has no 'Every' property but it is
required.` when `Cmd` is not empty and `Every` is the empty string; in both
cases nothing is done, so the job is not handed to `Schedule`. -/
theorem SetupJobs_missing_property (rt : Runtime) (options : Options) (n : Str) (job : Job) :
    (job.Cmd = [] →
        SetupJobs rt { Options := options, Jobs := [(n, job)] }
          = (some ("Job '".toList ++ n
              ++ "' has no 'Cmd' property but it is required.".toList), []))
      ∧ (job.Cmd ≠ [] → job.Every = [] →
        SetupJobs rt { Options := options, Jobs := [(n, job)] }
          = (some ("Job '".toList ++ n
              ++ "' has no 'Every' property but it is required.".toList), [])) := by
  constructor
  · intro h
    simp [SetupJobs, SetupJobsLoop, h]
  · intro h1 h2
    simp [SetupJobs, SetupJobsLoop, h1, h2]

/-- A worked case of C6: the job `Backup` without command, and the job
`Backup` with a command and without `Every`. -/
theorem SetupJobs_missing_property_witness :
    SetupJobs exampleRuntime
        { Options := { LogPath := [], KeepLogsDays := 0, Timezone := [] }
          Jobs := [("Backup".toList,
            { Cmd := [], Every := [], At := [], DayOfMonth := 0, Timezone := [] })] }
      = (some "Job 'Backup' has no 'Cmd' property but it is required.".toList, [])
    ∧ SetupJobs exampleRuntime
        { Options := { LogPath := [], KeepLogsDays := 0, Timezone := [] }
          Jobs := [("Backup".toList,
            { Cmd := ["ls".toList], Every := [], At := [], DayOfMonth := 0,
              Timezone := [] })] }
      = (some "Job 'Backup' has no 'Every' property but it is required.".toList, []) :=
  ⟨(SetupJobs_missing_property exampleRuntime
      { LogPath := [], KeepLogsDays := 0, Timezone := [] } "Backup".toList
      { Cmd := [], Every := [], At := [], DayOfMonth := 0, Timezone := [] }).1 rfl,
   (SetupJobs_missing_property exampleRuntime
      { LogPath := [], KeepLogsDays := 0, Timezone := [] } "Backup".toList
      { Cmd := ["ls".toList], Every := [], At := [], DayOfMonth := 0, Timezone := [] }).2
      (by decide) rfl⟩

/-- C7 fails as stated: in `exampleConfig` the job `BackupDaily` is visited
first, scheduled and started, and then `SetupJobs` returns the error of
`BackupWeekly`, which has no command; the scheduler of `BackupDaily` stays
started. -/
theorem SetupJobs_partial_start :
    (SetupJobs exampleRuntime exampleConfig).1
        = some "Job 'BackupWeekly' has no 'Cmd' property but it is required.".toList
      ∧ (SetupJobs exampleRuntime exampleConfig).2.filterMap Event.registered?
        = ["BackupDaily".toList]
      ∧ (SetupJobs exampleRuntime exampleConfig).2.filterMap Event.started?
        = [{ location := .Local, calls := [.EveryInt 1, .Days, .At "2:15".toList] }] := by
  decide

theorem SetupJobsLoop_fail_fast (rt : Runtime) (options : Options) :
    ∀ (jobs : List (Str × Job)) (e : Str), (SetupJobsLoop rt options jobs).1 = some e →
      ∃ pre failing post, jobs = pre ++ failing :: post
        ∧ (∀ p ∈ pre, (SetupJobsLoop rt options [p]).1 = none)
        ∧ (SetupJobsLoop rt options [failing]).1 = some e
        ∧ (SetupJobsLoop rt options jobs).2 = (SetupJobsLoop rt options (pre ++ [failing])).2
        ∧ (SetupJobsLoop rt options jobs).2.filterMap Event.registered? = pre.map Prod.fst
        ∧ ((SetupJobsLoop rt options jobs).2.filterMap Event.started?).length = pre.length := by
  intro jobs
  induction jobs with
  | nil => intro e h; simp [SetupJobsLoop] at h
  | cons p rest ih =>
    intro e h
    obtain ⟨jobName, job⟩ := p
    by_cases hc : job.Cmd.length = 0
    · refine ⟨[], (jobName, job), rest, rfl, by simp, ?_, ?_, ?_, ?_⟩
      · simpa [SetupJobsLoop, hc] using h
      · simp [SetupJobsLoop, hc]
      · simp [SetupJobsLoop, hc]
      · simp [SetupJobsLoop, hc]
    · by_cases he : job.Every = []
      · refine ⟨[], (jobName, job), rest, rfl, by simp, ?_, ?_, ?_, ?_⟩
        · simpa [SetupJobsLoop, hc, he] using h
        · simp [SetupJobsLoop, hc, he]
        · simp [SetupJobsLoop, hc, he]
        · simp [SetupJobsLoop, hc, he]
      · cases hS : Schedule rt jobName
            (if job.Timezone = [] then { job with Timezone := options.Timezone } else job) with
        | mk r events =>
          cases r with
          | some e2 =>
            have hev := Schedule_error_events rt jobName _ e2 (by rw [hS])
            rw [hS] at hev
            refine ⟨[], (jobName, job), rest, rfl, by simp, ?_, ?_, ?_, ?_⟩
            · simpa [SetupJobsLoop, hc, he, hS] using h
            · simp [SetupJobsLoop, hc, he, hS]
            · simp [SetupJobsLoop, hc, he, hS, hev.1, Event.registered?]
            · simp [SetupJobsLoop, hc, he, hS, hev.2, Event.started?]
          | none =>
            have hev := Schedule_ok_events rt jobName _ (by rw [hS])
            rw [hS] at hev
            have hrest : (SetupJobsLoop rt options rest).1 = some e := by
              simpa [SetupJobsLoop, hc, he, hS] using h
            obtain ⟨pre, failing, post, hjobs, hpre, hfail, hsame, hreg, hstart⟩ := ih e hrest
            refine ⟨(jobName, job) :: pre, failing, post, by simp [hjobs], ?_, hfail, ?_, ?_, ?_⟩
            · intro p hp
              rcases List.mem_cons.mp hp with rfl | hp
              · simp [SetupJobsLoop, hc, he, hS]
              · exact hpre p hp
            · simp [SetupJobsLoop, hc, he, hS, hsame]
            · simp [SetupJobsLoop, hc, he, hS, hev.1, hreg, Event.registered?,
                List.filterMap_append]
            · simp [SetupJobsLoop, hc, he, hS, hev.2, hstart, Event.started?,
                List.filterMap_append]
              omega

/-- C7, as the program has it: `SetupJobs` stops at the first job, in visiting
order, whose setup fails and returns the error of that job; what it did is what
it does for the jobs up to that one, the jobs after it being left untouched;
the jobs visited before the failing one have been registered and their
schedulers started, and they stay so. -/
theorem SetupJobs_fail_fast (rt : Runtime) (config : Config) (e : Str)
    (h : (SetupJobs rt config).1 = some e) :
    ∃ pre failing post, config.Jobs = pre ++ failing :: post
      ∧ (∀ p ∈ pre, (SetupJobs rt { config with Jobs := [p] }).1 = none)
      ∧ (SetupJobs rt { config with Jobs := [failing] }).1 = some e
      ∧ (SetupJobs rt config).2 = (SetupJobs rt { config with Jobs := pre ++ [failing] }).2
      ∧ (SetupJobs rt config).2.filterMap Event.registered? = pre.map Prod.fst
      ∧ ((SetupJobs rt config).2.filterMap Event.started?).length = pre.length :=
  SetupJobsLoop_fail_fast rt config.Options config.Jobs e h

/-- A worked case of C7: `exampleConfig`, where one job precedes the failing
one. -/
theorem SetupJobs_fail_fast_witness :
    (SetupJobs exampleRuntime exampleConfig).1
        = some "Job 'BackupWeekly' has no 'Cmd' property but it is required.".toList
      ∧ ∃ pre failing post, exampleConfig.Jobs = pre ++ failing :: post
        ∧ (∀ p ∈ pre, (SetupJobs exampleRuntime { exampleConfig with Jobs := [p] }).1 = none)
        ∧ (SetupJobs exampleRuntime { exampleConfig with Jobs := [failing] }).1
            = some "Job 'BackupWeekly' has no 'Cmd' property but it is required.".toList
        ∧ (SetupJobs exampleRuntime exampleConfig).2
            = (SetupJobs exampleRuntime { exampleConfig with Jobs := pre ++ [failing] }).2
        ∧ (SetupJobs exampleRuntime exampleConfig).2.filterMap Event.registered?
            = pre.map Prod.fst
        ∧ ((SetupJobs exampleRuntime exampleConfig).2.filterMap Event.started?).length
            = pre.length :=
  ⟨by decide, SetupJobs_fail_fast exampleRuntime exampleConfig _ (by decide)⟩

/-! ## The multiplier -/

theorem Atoi_range (s : Str) (n : Int) (h : Atoi s = some n) :
    -(2 : Int) ^ 63 ≤ n ∧ n < (2 : Int) ^ 63 := by
  unfold Atoi at h
  simp only at h
  generalize (if s.head? = some '-' ∨ s.head? = some '+' then s.drop 1 else s) = d at h
  by_cases hd : d = []
  · simp [hd] at h
  · rw [if_neg hd] at h
    cases hm : DigitsValue 0 d with
    | none => rw [hm] at h; simp at h
    | some m =>
      rw [hm] at h
      simp only at h
      split_ifs at h
      all_goals
        simp only [Option.some.injEq] at h
        rw [← h]
        assumption

theorem ConfigureUnit_ok_head (rt : Runtime) (jobName : Str) (value : Int) (u atExpr : Str)
    (dayOfTheMonth : Int) (timezone : Location) (s : Scheduler)
    (h : ConfigureUnit rt jobName value u atExpr dayOfTheMonth timezone = .ok s) :
    s.calls.head? = some (.EveryInt value)
      ∨ s.calls.head? = some (.EveryDuration (MulDuration value Second))
      ∨ s.calls.head? = some (.EveryDuration (MulDuration value Minute))
      ∨ s.calls.head? = some (.EveryDuration (MulDuration value Hour)) := by
  by_cases hu : u ∈ EveryVocabulary
  · by_cases hsub : u ∈ SubDayUnits
    · rw [ConfigureUnit_subday rt jobName value u atExpr dayOfTheMonth timezone hsub] at h
      split_ifs at h
      simp only [Except.ok.injEq] at h
      subst h
      simp only [SubDayUnits, List.mem_cons, List.mem_singleton, List.not_mem_nil,
        or_false] at hsub
      rcases hsub with h | h | h | h | h | h <;> subst h <;>
        simp +decide [UnitLength, Second, Minute, Hour]
    · simp only [EveryVocabulary, List.mem_cons, List.mem_singleton, List.not_mem_nil,
        or_false] at hu
      simp only [SubDayUnits, List.mem_cons, List.mem_singleton, List.not_mem_nil,
        or_false, not_or] at hsub
      rcases hu with h1 | h1 | h1 | h1 | h1 | h1 | h1 | h1 | h1 | h1 | h1 | h1 | h1 | h1 | h1
        | h1 | h1 | h1 | h1 | h1 | h1 | h1 | h1 | h1 | h1 | h1 <;> subst h1 <;>
        first
        | exact absurd rfl hsub.1
        | exact absurd rfl hsub.2.1
        | exact absurd rfl hsub.2.2.1
        | exact absurd rfl hsub.2.2.2.1
        | exact absurd rfl hsub.2.2.2.2.1
        | exact absurd rfl hsub.2.2.2.2.2
        | (simp +decide [ConfigureUnit, NewScheduler, Scheduler.call] at h
           subst h
           simp)
  · rw [ConfigureUnit_invalid rt jobName value u atExpr dayOfTheMonth timezone hu] at h
    exact absurd h (by simp)
theorem ParseMultiplier_ok (jobName every u : Str) (value : Int)
    (h : ParseMultiplier jobName every = .ok (value, u)) :
    (' ' ∉ every ∧ value = 1)
      ∨ (' ' ∈ every ∧ Atoi (every.takeWhile (fun c => c != ' ')) = some value) := by
  unfold ParseMultiplier at h
  by_cases hsp : ' ' ∈ every
  · right
    refine ⟨hsp, ?_⟩
    simp only [ContainsSpace, hsp, decide_True, if_true, SplitN2] at h
    split at h
    · exact absurd h (by simp)
    · rename_i v hv
      simp only [Except.ok.injEq, Prod.mk.injEq] at h
      rw [hv, h.1]
  · left
    refine ⟨hsp, ?_⟩
    simp only [ContainsSpace, hsp, decide_False, Bool.false_eq_true, if_false, Except.ok.injEq,
      Prod.mk.injEq] at h
    exact h.1.symm

/-- C8 fails as stated: `ParseTime` accepts `0 days`, configuring `Every(0)`,
and `-3 hours`, configuring an interval of minus three hours. -/
theorem ParseTime_accepts_zero_and_negative :
    ParseTime exampleRuntime "J".toList "0 days".toList "__default__".toList 1 .Local
        = .ok { location := .Local, calls := [.EveryInt 0, .Days] }
      ∧ ParseTime exampleRuntime "J".toList "-3 hours".toList "__default__".toList 1 .Local
        = .ok { location := .Local, calls := [.EveryDuration (-3 * Hour), .StartAt 0] } := by
  decide

/-- C8, as the program has it: the schedule that `ParseTime` returns without
error was configured, in its first call, with a count `N` that is 1 when the
normalised expression has no space and otherwise the integer that
`strconv.Atoi` reads before the first space; `N` is any 64-bit integer, zero and
negative ones included. -/
theorem ParseTime_count (rt : Runtime) (jobName every atExpr : Str) (dayOfTheMonth : Int)
    (timezone : Location) (s : Scheduler)
    (h : ParseTime rt jobName every atExpr dayOfTheMonth timezone = .ok s) :
    ∃ N : Int, (-(2 : Int) ^ 63 ≤ N ∧ N < (2 : Int) ^ 63)
      ∧ ((' ' ∉ NormString rt.lower every ∧ N = 1)
        ∨ (' ' ∈ NormString rt.lower every
          ∧ Atoi ((NormString rt.lower every).takeWhile (fun c => c != ' ')) = some N))
      ∧ (s.calls.head? = some (.EveryInt N)
        ∨ s.calls.head? = some (.EveryDuration (MulDuration N Second))
        ∨ s.calls.head? = some (.EveryDuration (MulDuration N Minute))
        ∨ s.calls.head? = some (.EveryDuration (MulDuration N Hour))) := by
  cases hpm : ParseMultiplier jobName (NormString rt.lower every) with
  | error e => simp [ParseTime, hpm] at h
  | ok vu =>
    obtain ⟨value, u⟩ := vu
    rw [ParseTime_of_multiplier rt jobName every atExpr dayOfTheMonth timezone value u hpm] at h
    have hform := ParseMultiplier_ok jobName _ u value hpm
    have hrange : -(2 : Int) ^ 63 ≤ value ∧ value < (2 : Int) ^ 63 := by
      rcases hform with ⟨_, h1⟩ | ⟨_, h2⟩
      · rw [h1]; decide
      · exact Atoi_range _ _ h2
    refine ⟨value, hrange, hform, ?_⟩
    cases hcu : ConfigureUnit rt jobName value u (NormString rt.lower atExpr) dayOfTheMonth
        timezone with
    | error e => rw [hcu] at h; simp at h
    | ok s0 =>
      have hhead := ConfigureUnit_ok_head rt jobName value u _ dayOfTheMonth timezone s0 hcu
      rw [hcu] at h
      simp only at h
      split_ifs at h
      · simp only [Except.ok.injEq] at h
        rw [← h]
        have hne : s0.calls ≠ [] := by
          intro hnil
          rw [hnil] at hhead
          simp at hhead
        obtain ⟨c, cs, hcs⟩ := List.exists_cons_of_ne_nil hne
        simpa [Scheduler.call, hcs] using hhead
      · simp only [Except.ok.injEq] at h
        rw [← h]
        exact hhead

/-- A worked case of C8: `-3 hours` gives the count -3. -/
theorem ParseTime_count_witness :
    ParseTime exampleRuntime "J".toList "-3 hours".toList "__default__".toList 1 .Local
        = .ok { location := .Local, calls := [.EveryDuration (-3 * Hour), .StartAt 0] }
      ∧ ∃ N : Int, (-(2 : Int) ^ 63 ≤ N ∧ N < (2 : Int) ^ 63)
        ∧ ((' ' ∉ NormString exampleRuntime.lower "-3 hours".toList ∧ N = 1)
          ∨ (' ' ∈ NormString exampleRuntime.lower "-3 hours".toList
            ∧ Atoi ((NormString exampleRuntime.lower "-3 hours".toList).takeWhile
                (fun c => c != ' ')) = some N))
        ∧ ((List.head? [Call.EveryDuration (-3 * Hour), Call.StartAt 0]) = some (.EveryInt N)
          ∨ (List.head? [Call.EveryDuration (-3 * Hour), Call.StartAt 0])
              = some (.EveryDuration (MulDuration N Second))
          ∨ (List.head? [Call.EveryDuration (-3 * Hour), Call.StartAt 0])
              = some (.EveryDuration (MulDuration N Minute))
          ∨ (List.head? [Call.EveryDuration (-3 * Hour), Call.StartAt 0])
              = some (.EveryDuration (MulDuration N Hour))) :=
  ⟨by decide,
    ParseTime_count exampleRuntime "J".toList "-3 hours".toList "__default__".toList 1 .Local
      { location := .Local, calls := [.EveryDuration (-3 * Hour), .StartAt 0] } (by decide)⟩

/-! ## The arguments handed to the parser -/

/-- C9 fails as stated: for a job with `DayOfMonth = 40`, `Schedule` hands 40 to
`ParseTime`, which configures `Months(40)`; 40 is not within 1 to 31. -/
theorem Schedule_dayOfMonth_not_clamped :
    (Schedule exampleRuntime "Monthly".toList exampleJobMonthly).2.filterMap
        Event.dayOfTheMonth? = [40]
      ∧ (Schedule exampleRuntime "Monthly".toList exampleJobMonthly).2.filterMap
          Event.started? = [{ location := .UTC, calls := [.EveryInt 1, .Months 40] }]
      ∧ ¬ ((1 : Int) ≤ 40 ∧ (40 : Int) ≤ 31) := by
  decide

/-- C9, as the program has it: `Schedule` calls `ParseTime` once, with the day
of the month 1 when the job has `DayOfMonth = 0` (the unset value) and with the
`DayOfMonth` of the job unchanged otherwise, whether or not it lies within 1 to
31. -/
theorem Schedule_dayOfMonth (rt : Runtime) (jobName : Str) (job : Job) :
    (Schedule rt jobName job).2.filterMap Event.dayOfTheMonth?
      = [if job.DayOfMonth = 0 then 1 else job.DayOfMonth] := by
  unfold Schedule
  simp only
  split
  · simp [Event.dayOfTheMonth?]
  · split <;> simp [Event.dayOfTheMonth?]

theorem ToLower_utc (lower : Char → Char) : ToLower lower "utc".toList = "utc".toList := by
  rfl

theorem Schedule_parse_event (rt : Runtime) (jobName : Str) (job : Job)
    (n every atExpr : Str) (d : Int) (tz : Location)
    (h : Event.ParseTimeCalled n every atExpr d tz ∈ (Schedule rt jobName job).2) :
    n = jobName ∧ every = job.Every
      ∧ tz = (if ToLower rt.lower job.Timezone = "utc".toList then Location.UTC
          else Location.Local) := by
  unfold Schedule at h
  simp only at h
  split at h
  · simp only [List.mem_singleton, Event.ParseTimeCalled.injEq] at h
    exact ⟨h.1, h.2.1, h.2.2.2.2⟩
  · split at h
    · simp only [List.mem_singleton, Event.ParseTimeCalled.injEq] at h
      exact ⟨h.1, h.2.1, h.2.2.2.2⟩
    · simp only [List.mem_cons, Event.ParseTimeCalled.injEq, List.mem_singleton,
        List.not_mem_nil, or_false, false_or, reduceCtorEq] at h
      exact ⟨h.1, h.2.1, h.2.2.2.2⟩

theorem SetupJobsLoop_parse_event (rt : Runtime) (options : Options)
    (n every atExpr : Str) (d : Int) (tz : Location) :
    ∀ jobs : List (Str × Job),
      Event.ParseTimeCalled n every atExpr d tz ∈ (SetupJobsLoop rt options jobs).2 →
        ∃ job, (n, job) ∈ jobs ∧ job.Every = every
          ∧ tz = (if ToLower rt.lower (EffectiveTimezone options job) = "utc".toList
              then Location.UTC else Location.Local) := by
  intro jobs
  induction jobs with
  | nil => intro h; simp [SetupJobsLoop] at h
  | cons p rest ih =>
    intro h
    obtain ⟨jobName, job⟩ := p
    by_cases hc : job.Cmd.length = 0
    · simp [SetupJobsLoop, hc] at h
    · by_cases he : job.Every = []
      · simp [SetupJobsLoop, hc, he] at h
      · have hhere : Event.ParseTimeCalled n every atExpr d tz ∈ (Schedule rt jobName
            (if job.Timezone = [] then { job with Timezone := options.Timezone }
              else job)).2 →
            ∃ job2, (n, job2) ∈ (jobName, job) :: rest ∧ job2.Every = every
              ∧ tz = (if ToLower rt.lower (EffectiveTimezone options job2) = "utc".toList
                  then Location.UTC else Location.Local) := by
          intro hmem
          obtain ⟨h1, h2, h3⟩ := Schedule_parse_event rt jobName _ n every atExpr d tz hmem
          refine ⟨job, by simp [h1], ?_, ?_⟩
          · rw [h2]; split <;> rfl
          · rw [h3]
            unfold EffectiveTimezone
            split <;> rfl
        cases hS : Schedule rt jobName
            (if job.Timezone = [] then { job with Timezone := options.Timezone } else job) with
        | mk r events =>
          rw [hS] at hhere
          cases r with
          | some e2 =>
            simp only [SetupJobsLoop, hc, he, if_false, hS, List.mem_cons, reduceCtorEq,
              false_or] at h
            exact hhere h
          | none =>
            simp only [SetupJobsLoop, hc, he, if_false, hS, List.mem_cons, reduceCtorEq,
              false_or, List.mem_append, List.cons_append] at h
            rcases h with h | h
            · exact hhere h
            · obtain ⟨job2, hm, h2, h3⟩ := ih h
              exact ⟨job2, List.mem_cons_of_mem _ hm, h2, h3⟩

/-! ## Normalisation -/

theorem IsSpace_of_IsReSpace (c : Char) (h : IsReSpace c = true) : IsSpace c = true := by
  simp only [IsReSpace, decide_eq_true_eq] at h
  simp only [IsSpace, decide_eq_true_eq]
  omega

theorem TrimSpace_trimmed (s : Str) : Trimmed (TrimSpace s) := by
  constructor
  · intro c hc
    have hpre : TrimSpace s <+: s.dropWhile IsSpace := List.rdropWhile_prefix _ _
    obtain ⟨r, hr⟩ := hpre
    have hhead : (s.dropWhile IsSpace).head? = some c := by
      rw [← hr, List.head?_append, hc]
      rfl
    have := List.head?_dropWhile_not IsSpace s
    rw [hhead] at this
    simpa using this
  · intro c hc
    have hne : TrimSpace s ≠ [] := by
      intro hnil
      rw [hnil] at hc
      simp at hc
    have hlast := List.rdropWhile_last_not IsSpace (s.dropWhile IsSpace) hne
    rw [List.getLast?_eq_getLast _ hne] at hc
    simp only [Option.some.injEq] at hc
    have hc2 : (List.rdropWhile IsSpace (List.dropWhile IsSpace s)).getLast hne = c := hc
    rw [hc2] at hlast
    simpa using hlast

theorem TrimSpace_of_trimmed (s : Str) (h : Trimmed s) : TrimSpace s = s := by
  have h1 : s.dropWhile IsSpace = s := by
    cases s with
    | nil => rfl
    | cons c cs =>
      have := h.1 c rfl
      simp [List.dropWhile_cons, this]
  unfold TrimSpace
  rw [h1, List.rdropWhile_eq_self_iff]
  intro hl
  have := h.2 (s.getLast hl) (List.getLast?_eq_getLast _ hl)
  simp [this]

theorem ReplaceRuns_getLast (s : Str) (c : Char) (hc : s.getLast? = some c)
    (hsp : IsReSpace c = false) : ∀ b, (ReplaceRuns b s).getLast? = some c := by
  induction s with
  | nil => simp at hc
  | cons c0 cs ih =>
    intro b
    cases cs with
    | nil =>
      simp only [List.getLast?_singleton, Option.some.injEq] at hc
      subst hc
      simp [ReplaceRuns, hsp]
    | cons d ds =>
      rw [List.getLast?_cons_cons] at hc
      have ih2 := ih hc
      have hne : ∀ b2, ReplaceRuns b2 (d :: ds) ≠ [] := by
        intro b2 hnil
        have := ih2 b2
        rw [hnil] at this
        simp at this
      have hcons : ∀ (x : Char) (b2 : Bool),
          (x :: ReplaceRuns b2 (d :: ds)).getLast? = some c := by
        intro x b2
        obtain ⟨y, ys, hys⟩ := List.exists_cons_of_ne_nil (hne b2)
        rw [hys, List.getLast?_cons_cons, ← hys]
        exact ih2 b2
      rw [ReplaceRuns]
      split
      · split
        · exact ih2 true
        · exact hcons _ _
      · exact hcons _ _

theorem ReplaceRuns_trimmed (s : Str) (h : Trimmed s) : Trimmed (ReplaceRuns false s) := by
  cases s with
  | nil => simpa [ReplaceRuns] using h
  | cons c cs =>
    have hc : IsSpace c = false := h.1 c rfl
    have hre : IsReSpace c = false := by
      cases hr : IsReSpace c with
      | false => rfl
      | true => rw [IsSpace_of_IsReSpace c hr] at hc; exact absurd hc (by simp)
    constructor
    · intro x hx
      simp only [ReplaceRuns, hre, Bool.false_eq_true, if_false, List.head?_cons,
        Option.some.injEq] at hx
      rw [← hx]
      exact hc
    · intro x hx
      have hne : (c :: cs) ≠ [] := by simp
      have hl := List.getLast?_eq_getLast (c :: cs) hne
      have hsp : IsSpace ((c :: cs).getLast hne) = false := h.2 _ hl
      have hre2 : IsReSpace ((c :: cs).getLast hne) = false := by
        cases hr : IsReSpace ((c :: cs).getLast hne) with
        | false => rfl
        | true => rw [IsSpace_of_IsReSpace _ hr] at hsp; exact absurd hsp (by simp)
      have := ReplaceRuns_getLast (c :: cs) _ hl hre2 false
      rw [this] at hx
      simp only [Option.some.injEq] at hx
      rw [← hx]
      exact hsp

theorem ReplaceRuns_idem (s : Str) :
    ReplaceRuns false (ReplaceRuns false s) = ReplaceRuns false s
      ∧ ReplaceRuns false (ReplaceRuns true s) = ReplaceRuns true s
      ∧ ReplaceRuns true (ReplaceRuns true s) = ReplaceRuns true s := by
  induction s with
  | nil => simp [ReplaceRuns]
  | cons c cs ih =>
    by_cases hc : IsReSpace c = true
    · have hsp : IsReSpace ' ' = true := by decide
      simp [ReplaceRuns, hc, hsp, ih.2.1, ih.2.2]
    · simp [ReplaceRuns, hc, ih.1]

theorem ReplaceRuns_mem (s : Str) (c : Char) :
    ∀ b, c ∈ ReplaceRuns b s → c = ' ' ∨ c ∈ s := by
  induction s with
  | nil => intro b h; simp [ReplaceRuns] at h
  | cons x xs ih =>
    intro b h
    rw [ReplaceRuns] at h
    split at h
    · split at h
      · rcases ih true h with h1 | h1
        · exact Or.inl h1
        · exact Or.inr (List.mem_cons_of_mem _ h1)
      · rcases List.mem_cons.mp h with h1 | h1
        · exact Or.inl h1
        · rcases ih true h1 with h2 | h2
          · exact Or.inl h2
          · exact Or.inr (List.mem_cons_of_mem _ h2)
    · rcases List.mem_cons.mp h with h1 | h1
      · exact Or.inr (by rw [h1]; exact List.mem_cons_self _ _)
      · rcases ih false h1 with h2 | h2
        · exact Or.inl h2
        · exact Or.inr (List.mem_cons_of_mem _ h2)

theorem ToLower_of_fixed (lower : Char → Char) (s : Str)
    (h : ∀ c ∈ s, ToLowerRune lower c = c) : ToLower lower s = s := by
  unfold ToLower
  induction s with
  | nil => rfl
  | cons c cs ih =>
    rw [List.map_cons, h c (List.mem_cons_self _ _),
      ih (fun x hx => h x (List.mem_cons_of_mem _ hx))]

theorem NormString_idem (lower : Char → Char)
    (hlower : ∀ c, ToLowerRune lower (ToLowerRune lower c) = ToLowerRune lower c) (s : Str) :
    NormString lower (NormString lower s) = NormString lower s := by
  have hfix : ToLower lower (NormString lower s) = NormString lower s := by
    apply ToLower_of_fixed
    intro c hc
    rcases ReplaceRuns_mem _ c false hc with h1 | h1
    · rw [h1]; rfl
    · have h2 : c ∈ ToLower lower s := (List.rdropWhile_prefix _ _).subset
        |>.trans (List.dropWhile_suffix _).subset |> fun f => f h1
      obtain ⟨x, _, hx⟩ := List.mem_map.mp h2
      rw [← hx]
      exact hlower x
  have htrim : Trimmed (NormString lower s) :=
    ReplaceRuns_trimmed _ (TrimSpace_trimmed _)
  show ReplaceAllSpace (TrimSpace (ToLower lower (NormString lower s))) = NormString lower s
  rw [hfix, TrimSpace_of_trimmed _ htrim]
  exact (ReplaceRuns_idem _).1

theorem ToLowerRune_idem_of_table (lower : Char → Char)
    (h : ∀ c : Char, 128 ≤ c.toNat → ToLowerRune lower (lower c) = lower c) (c : Char) :
    ToLowerRune lower (ToLowerRune lower c) = ToLowerRune lower c := by
  by_cases h1 : c.toNat < 128
  · by_cases h2 : 65 ≤ c.toNat ∧ c.toNat ≤ 90
    · have hc : c = Char.ofNat c.toNat := (Char.ofNat_toNat c).symm
      generalize c.toNat = n at h2 hc
      subst hc
      obtain ⟨h3, h4⟩ := h2
      interval_cases n <;> rfl
    · simp [ToLowerRune, h1, h2]
  · have h3 : ToLowerRune lower c = lower c := by
      unfold ToLowerRune
      rw [if_neg h1]
    rw [h3]
    exact h c (by omega)

theorem exampleRuntime_lower_idem (c : Char) :
    ToLowerRune exampleRuntime.lower (ToLowerRune exampleRuntime.lower c)
      = ToLowerRune exampleRuntime.lower c := by
  apply ToLowerRune_idem_of_table
  intro x hx
  have hx2 : ¬ x.toNat < 128 := by omega
  show ToLowerRune (fun c => c) x = x
  unfold ToLowerRune
  rw [if_neg hx2]

/-! ## Normalisation of expressions that are already normal -/

theorem IsReSpace_false_of_IsSpace (c : Char) (h : IsSpace c = false) : IsReSpace c = false := by
  cases hr : IsReSpace c with
  | false => rfl
  | true => rw [IsSpace_of_IsReSpace c hr] at h; exact absurd h (by simp)

theorem ReplaceRuns_of_no_space (s : Str) (h : ∀ c ∈ s, IsReSpace c = false) :
    ∀ b, ReplaceRuns b s = s := by
  induction s with
  | nil => intro b; rfl
  | cons c cs ih =>
    intro b
    have hc := h c (List.mem_cons_self _ _)
    simp only [ReplaceRuns, hc, Bool.false_eq_true, if_false,
      ih (fun x hx => h x (List.mem_cons_of_mem _ hx)) false]

theorem ReplaceRuns_append_space (a u : Str) (h : ∀ c ∈ a, IsReSpace c = false) :
    ReplaceRuns false (a ++ ' ' :: u) = a ++ ' ' :: ReplaceRuns true u := by
  induction a with
  | nil =>
    have hsp : IsReSpace ' ' = true := by decide
    simp [ReplaceRuns, hsp]
  | cons c cs ih =>
    have hc := h c (List.mem_cons_self _ _)
    have ih2 := ih (fun x hx => h x (List.mem_cons_of_mem _ hx))
    rw [List.cons_append, ReplaceRuns, if_neg (by simp [hc]), ih2, List.cons_append]

theorem Trimmed_of_ends (s : Str) (hhead : ∀ c, s.head? = some c → IsSpace c = false)
    (hlast : ∀ c, s.getLast? = some c → IsSpace c = false) : Trimmed s :=
  ⟨hhead, hlast⟩

theorem Trimmed_of_no_space (s : Str) (h : ∀ c ∈ s, IsSpace c = false) : Trimmed s :=
  ⟨fun c hc => h c (List.mem_of_mem_head? hc), fun c hc => h c (List.mem_of_mem_getLast? hc)⟩

theorem Trimmed_append_space (a u : Str) (ha : ∀ c ∈ a, IsSpace c = false) (hane : a ≠ [])
    (hu : ∀ c ∈ u, IsSpace c = false) (hune : u ≠ []) : Trimmed (a ++ ' ' :: u) := by
  constructor
  · intro c hc
    obtain ⟨x, xs, hx⟩ := List.exists_cons_of_ne_nil hane
    rw [hx] at hc
    simp only [List.cons_append, List.head?_cons, Option.some.injEq] at hc
    rw [← hc]
    exact ha x (by rw [hx]; exact List.mem_cons_self _ _)
  · intro c hc
    obtain ⟨x, xs, hx⟩ := List.exists_cons_of_ne_nil hune
    have h2 : (a ++ ' ' :: u).getLast? = u.getLast? := by
      rw [hx, List.getLast?_append, List.getLast?_cons_cons]
      cases hl : (x :: xs).getLast? with
      | none => simp at hl
      | some y => rfl
    rw [h2] at hc
    exact hu c (List.mem_of_mem_getLast? hc)

theorem Normalise_of_no_space (t : Str) (h : ∀ c ∈ t, IsSpace c = false) :
    ReplaceAllSpace (TrimSpace t) = t := by
  rw [TrimSpace_of_trimmed t (Trimmed_of_no_space t h)]
  exact ReplaceRuns_of_no_space t (fun c hc => IsReSpace_false_of_IsSpace c (h c hc)) false

theorem Normalise_append_space (a u : Str) (ha : ∀ c ∈ a, IsSpace c = false) (hane : a ≠ [])
    (hu : ∀ c ∈ u, IsSpace c = false) (hune : u ≠ []) :
    ReplaceAllSpace (TrimSpace (a ++ ' ' :: u)) = a ++ ' ' :: u := by
  rw [TrimSpace_of_trimmed _ (Trimmed_append_space a u ha hane hu hune)]
  unfold ReplaceAllSpace
  rw [ReplaceRuns_append_space a u (fun c hc => IsReSpace_false_of_IsSpace c (ha c hc)),
    ReplaceRuns_of_no_space u (fun c hc => IsReSpace_false_of_IsSpace c (hu c hc)) true]

theorem ToLower_append_space (lower : Char → Char) (a u : Str) :
    ToLower lower (a ++ ' ' :: u) = ToLower lower a ++ ' ' :: ToLower lower u := by
  unfold ToLower
  rw [List.map_append, List.map_cons]
  rfl

theorem ToLowerRune_of_not_upper (lower : Char → Char) (c : Char) (h1 : c.toNat < 128)
    (h2 : ¬ (65 ≤ c.toNat ∧ c.toNat ≤ 90)) : ToLowerRune lower c = c := by
  unfold ToLowerRune
  rw [if_pos h1, if_neg h2]

theorem DigitsValue_digits (s : Str) (acc n : Nat) (h : DigitsValue acc s = some n) :
    ∀ c ∈ s, 48 ≤ c.toNat ∧ c.toNat ≤ 57 := by
  induction s generalizing acc with
  | nil => simp
  | cons c cs ih =>
    simp only [DigitsValue] at h
    split at h
    · rename_i hc
      intro x hx
      rcases List.mem_cons.mp hx with rfl | hx
      · exact hc
      · exact ih _ h x hx
    · exact absurd h (by simp)

theorem Atoi_chars (s : Str) (n : Int) (h : Atoi s = some n) :
    s ≠ [] ∧ ∀ c ∈ s, c.toNat = 43 ∨ c.toNat = 45 ∨ (48 ≤ c.toNat ∧ c.toNat ≤ 57) := by
  obtain ⟨m, hm⟩ := Atoi_digits s n h
  have hd := DigitsValue_digits _ _ _ hm
  cases s with
  | nil => exact absurd h (by simp [Atoi])
  | cons c cs =>
    refine ⟨by simp, ?_⟩
    by_cases hc : c = '-' ∨ c = '+'
    · have : (if (c :: cs).head? = some '-' ∨ (c :: cs).head? = some '+'
          then (c :: cs).drop 1 else c :: cs) = cs := by
        simp [hc]
      rw [this] at hd
      intro x hx
      rcases List.mem_cons.mp hx with rfl | hx
      · rcases hc with hc | hc <;> rw [hc] <;> decide
      · exact Or.inr (Or.inr (hd x hx))
    · have : (if (c :: cs).head? = some '-' ∨ (c :: cs).head? = some '+'
          then (c :: cs).drop 1 else c :: cs) = c :: cs := by
        simp [hc]
      rw [this] at hd
      intro x hx
      exact Or.inr (Or.inr (hd x hx))

theorem IsSpace_false_of_lt (c : Char) (h : 33 ≤ c.toNat ∧ c.toNat < 127) : IsSpace c = false := by
  simp only [IsSpace, decide_eq_false_iff_not]
  omega

theorem Atoi_clean (lower : Char → Char) (s : Str) (n : Int) (h : Atoi s = some n) :
    s ≠ [] ∧ (∀ c ∈ s, IsSpace c = false) ∧ ToLower lower s = s := by
  obtain ⟨hne, hc⟩ := Atoi_chars s n h
  refine ⟨hne, fun c hx => IsSpace_false_of_lt c (by have := hc c hx; omega), ?_⟩
  apply ToLower_of_fixed
  intro c hx
  have := hc c hx
  exact ToLowerRune_of_not_upper lower c (by omega) (by omega)

theorem EveryVocabulary_letters :
    ∀ u ∈ EveryVocabulary, u ≠ [] ∧ ∀ c ∈ u, 97 ≤ c.toNat ∧ c.toNat ≤ 122 := by
  decide

theorem EveryVocabulary_clean (lower : Char → Char) (u : Str) (hu : u ∈ EveryVocabulary) :
    u ≠ [] ∧ (∀ c ∈ u, IsSpace c = false) ∧ ToLower lower u = u := by
  obtain ⟨hne, hc⟩ := EveryVocabulary_letters u hu
  refine ⟨hne, fun c hx => IsSpace_false_of_lt c (by have := hc c hx; omega), ?_⟩
  apply ToLower_of_fixed
  intro c hx
  have := hc c hx
  exact ToLowerRune_of_not_upper lower c (by omega) (by omega)

theorem NormString_unit (lower : Char → Char) (u : Str) (hu : u ∈ EveryVocabulary) :
    NormString lower u = u := by
  obtain ⟨_, hsp, hlow⟩ := EveryVocabulary_clean lower u hu
  unfold NormString
  rw [hlow]
  exact Normalise_of_no_space u hsp

theorem NormString_count_unit (lower : Char → Char) (nstr u : Str) (n : Int)
    (hn : Atoi nstr = some n) (hu : u ∈ EveryVocabulary) :
    NormString lower (nstr ++ ' ' :: u) = nstr ++ ' ' :: u := by
  obtain ⟨hune, hsp, hlow⟩ := EveryVocabulary_clean lower u hu
  obtain ⟨hnne, hnsp, hnlow⟩ := Atoi_clean lower nstr n hn
  unfold NormString
  rw [ToLower_append_space, hlow, hnlow]
  exact Normalise_append_space nstr u hnsp hnne hsp hune

/-! ## The default multiplier -/

theorem ToLowerRune_space_of_table (lower : Char → Char)
    (h : ∀ c : Char, 128 ≤ c.toNat → IsSpace c = false → IsSpace (lower c) = false)
    (c : Char) (hc : IsSpace c = false) : IsSpace (ToLowerRune lower c) = false := by
  by_cases h1 : c.toNat < 128
  · by_cases h2 : 65 ≤ c.toNat ∧ c.toNat ≤ 90
    · have hcc : c = Char.ofNat c.toNat := (Char.ofNat_toNat c).symm
      generalize c.toNat = n at h2 hcc
      subst hcc
      obtain ⟨h3, h4⟩ := h2
      interval_cases n <;> rfl
    · rw [ToLowerRune_of_not_upper lower c h1 h2]
      exact hc
  · have h3 : ToLowerRune lower c = lower c := by
      unfold ToLowerRune
      rw [if_neg h1]
    rw [h3]
    exact h c (by omega) hc

theorem exampleRuntime_lower_space (c : Char) (hc : IsSpace c = false) :
    IsSpace (ToLowerRune exampleRuntime.lower c) = false := by
  apply ToLowerRune_space_of_table _ _ c hc
  intro x _ hx
  exact hx

theorem ConfigureUnit_ok_head_exact (rt : Runtime) (jobName : Str) (value : Int)
    (u atExpr : Str) (dayOfTheMonth : Int) (timezone : Location) (s : Scheduler)
    (hu : u ∈ EveryVocabulary)
    (h : ConfigureUnit rt jobName value u atExpr dayOfTheMonth timezone = .ok s) :
    s.calls.head? = some (if u ∈ SubDayUnits then
      Call.EveryDuration (MulDuration value (UnitLength u)) else Call.EveryInt value) := by
  by_cases hsub : u ∈ SubDayUnits
  · rw [ConfigureUnit_subday rt jobName value u atExpr dayOfTheMonth timezone hsub] at h
    split_ifs at h
    simp only [Except.ok.injEq] at h
    subst h
    simp [hsub]
  · rw [if_neg hsub]
    simp only [EveryVocabulary, List.mem_cons, List.mem_singleton, List.not_mem_nil,
      or_false] at hu
    simp only [SubDayUnits, List.mem_cons, List.mem_singleton, List.not_mem_nil,
      or_false, not_or] at hsub
    rcases hu with h1 | h1 | h1 | h1 | h1 | h1 | h1 | h1 | h1 | h1 | h1 | h1 | h1 | h1 | h1
      | h1 | h1 | h1 | h1 | h1 | h1 | h1 | h1 | h1 | h1 | h1 <;> subst h1 <;>
      first
      | exact absurd rfl hsub.1
      | exact absurd rfl hsub.2.1
      | exact absurd rfl hsub.2.2.1
      | exact absurd rfl hsub.2.2.2.1
      | exact absurd rfl hsub.2.2.2.2.1
      | exact absurd rfl hsub.2.2.2.2.2
      | (simp +decide [ConfigureUnit, NewScheduler, Scheduler.call] at h
         subst h
         simp)

theorem ParseTime_ok_head (rt : Runtime) (jobName every atExpr : Str)
    (dayOfTheMonth : Int) (timezone : Location) (value : Int) (u : Str) (s : Scheduler)
    (hpm : ParseMultiplier jobName (NormString rt.lower every) = .ok (value, u))
    (hu : u ∈ EveryVocabulary)
    (h : ParseTime rt jobName every atExpr dayOfTheMonth timezone = .ok s) :
    s.calls.head? = some (if u ∈ SubDayUnits then
      Call.EveryDuration (MulDuration value (UnitLength u)) else Call.EveryInt value) := by
  rw [ParseTime_of_multiplier rt jobName every atExpr dayOfTheMonth timezone value u hpm] at h
  cases hcu : ConfigureUnit rt jobName value u (NormString rt.lower atExpr) dayOfTheMonth
      timezone with
  | error e => rw [hcu] at h; simp at h
  | ok s0 =>
    have hhead := ConfigureUnit_ok_head_exact rt jobName value u _ dayOfTheMonth timezone s0
      hu hcu
    rw [hcu] at h
    simp only at h
    split_ifs at h
    · simp only [Except.ok.injEq] at h
      rw [← h]
      have hne : s0.calls ≠ [] := by
        intro hnil
        rw [hnil] at hhead
        simp at hhead
      obtain ⟨c, cs, hcs⟩ := List.exists_cons_of_ne_nil hne
      rw [hcs] at hhead
      simpa [Scheduler.call, hcs] using hhead
    · simp only [Except.ok.injEq] at h
      rw [← h]
      exact hhead

theorem ParseTime_ok_of_default (rt : Runtime) (jobName every atExpr : Str)
    (dayOfTheMonth : Int) (timezone : Location) (value : Int) (u : Str)
    (hpm : ParseMultiplier jobName (NormString rt.lower every) = .ok (value, u))
    (hu : u ∈ EveryVocabulary) (hat : NormString rt.lower atExpr = DefaultAt) :
    ∃ s, ParseTime rt jobName every atExpr dayOfTheMonth timezone = .ok s := by
  rw [ParseTime_of_multiplier rt jobName every atExpr dayOfTheMonth timezone value u hpm]
  rcases ConfigureUnit_valid rt jobName value u (NormString rt.lower atExpr) dayOfTheMonth
    timezone hu with ⟨s, hs⟩ | herr
  · rw [hs]
    simp [hat]
  · by_cases hsub : u ∈ SubDayUnits
    · rw [ConfigureUnit_subday rt jobName value u _ dayOfTheMonth timezone hsub]
      simp [hat]
    · exfalso
      simp only [EveryVocabulary, List.mem_cons, List.mem_singleton, List.not_mem_nil,
        or_false] at hu
      simp only [SubDayUnits, List.mem_cons, List.mem_singleton, List.not_mem_nil,
        or_false, not_or] at hsub
      rcases hu with h1 | h1 | h1 | h1 | h1 | h1 | h1 | h1 | h1 | h1 | h1 | h1 | h1 | h1 | h1
        | h1 | h1 | h1 | h1 | h1 | h1 | h1 | h1 | h1 | h1 | h1 <;> subst h1 <;>
        first
        | exact absurd rfl hsub.1
        | exact absurd rfl hsub.2.1
        | exact absurd rfl hsub.2.2.1
        | exact absurd rfl hsub.2.2.2.1
        | exact absurd rfl hsub.2.2.2.2.1
        | exact absurd rfl hsub.2.2.2.2.2
        | (simp +decide [ConfigureUnit] at herr)

/-! ## Singular and plural units -/

theorem SingularUnits_vocabulary :
    ∀ u ∈ SingularUnits, u ∈ EveryVocabulary ∧ u ++ ['s'] ∈ EveryVocabulary := by
  decide

theorem ParseMultiplier_prefixed (lower : Char → Char) (jobName pre nstr : Str) (n : Int)
    (hpre : pre = [] ∨ (Atoi nstr = some n ∧ pre = nstr ++ [' '])) :
    ∃ value : Int, ∀ u ∈ EveryVocabulary,
      ParseMultiplier jobName (NormString lower (pre ++ u)) = .ok (value, u) := by
  rcases hpre with h | ⟨hn, h⟩
  · refine ⟨1, fun u hu => ?_⟩
    rw [h, List.nil_append, NormString_unit lower u hu]
    exact ParseMultiplier_unit jobName u (EveryVocabulary_no_space u hu)
  · refine ⟨n, fun u hu => ?_⟩
    have hsplit : pre ++ u = nstr ++ ' ' :: u := by
      rw [h, List.append_assoc]
      rfl
    rw [hsplit, NormString_count_unit lower nstr u n hn hu]
    exact ParseMultiplier_count jobName nstr u n hn

theorem ConfigureUnit_plural (rt : Runtime) (jobName : Str) (value : Int) (u atExpr : Str)
    (dayOfTheMonth : Int) (timezone : Location) (hu : u ∈ SingularUnits) :
    ConfigureUnit rt jobName value u atExpr dayOfTheMonth timezone
        = ConfigureUnit rt jobName value (u ++ ['s']) atExpr dayOfTheMonth timezone
      ∨ ∃ e1 e2, ConfigureUnit rt jobName value u atExpr dayOfTheMonth timezone = .error e1
          ∧ ConfigureUnit rt jobName value (u ++ ['s']) atExpr dayOfTheMonth timezone
            = .error e2 := by
  simp only [SingularUnits, List.mem_cons, List.mem_singleton, List.not_mem_nil,
    or_false] at hu
  by_cases hat : atExpr = DefaultAt
  · left
    rcases hu with h | h | h | h | h | h | h | h | h | h | h | h | h <;> subst h <;>
      simp +decide [ConfigureUnit, hat]
  · rcases hu with h | h | h | h | h | h | h | h | h | h | h | h | h <;> subst h <;>
      simp +decide [ConfigureUnit, hat]

theorem ConfigureUnit_week (rt : Runtime) (jobName : Str) (value : Int) (atExpr : Str)
    (dayOfTheMonth : Int) (timezone : Location) :
    ConfigureUnit rt jobName value "week".toList atExpr dayOfTheMonth timezone
        = ConfigureUnit rt jobName value "sunday".toList atExpr dayOfTheMonth timezone
      ∧ ConfigureUnit rt jobName value "weeks".toList atExpr dayOfTheMonth timezone
        = ConfigureUnit rt jobName value "sunday".toList atExpr dayOfTheMonth timezone
      ∧ ConfigureUnit rt jobName value "sundays".toList atExpr dayOfTheMonth timezone
        = ConfigureUnit rt jobName value "sunday".toList atExpr dayOfTheMonth timezone := by
  simp +decide [ConfigureUnit]

/-- C12: singular and plural unit tokens are synonyms, and the week means
Sunday. For every multiplier prefix (none, or an integer that `strconv.Atoi`
accepts followed by a space), `at`, day of the month, zone and clock: for each
unit `u` among second, minute, hour, day, week, month and the weekday names,
`ParseTime` returns a schedule on `u` exactly when it returns one on `u + "s"`,
and it is the same schedule; and the results for `week`, `weeks` and `sundays`
are the result for `sunday`. -/
theorem ParseTime_singular_plural (rt : Runtime) (jobName atExpr : Str)
    (dayOfTheMonth : Int) (timezone : Location) (pre nstr : Str) (n : Int)
    (hpre : pre = [] ∨ (Atoi nstr = some n ∧ pre = nstr ++ [' '])) :
    (∀ u ∈ SingularUnits, ∀ s,
        ParseTime rt jobName (pre ++ u) atExpr dayOfTheMonth timezone = .ok s
          ↔ ParseTime rt jobName (pre ++ (u ++ "s".toList)) atExpr dayOfTheMonth timezone
            = .ok s)
      ∧ ParseTime rt jobName (pre ++ "week".toList) atExpr dayOfTheMonth timezone
        = ParseTime rt jobName (pre ++ "sunday".toList) atExpr dayOfTheMonth timezone
      ∧ ParseTime rt jobName (pre ++ "weeks".toList) atExpr dayOfTheMonth timezone
        = ParseTime rt jobName (pre ++ "sunday".toList) atExpr dayOfTheMonth timezone
      ∧ ParseTime rt jobName (pre ++ "sundays".toList) atExpr dayOfTheMonth timezone
        = ParseTime rt jobName (pre ++ "sunday".toList) atExpr dayOfTheMonth timezone := by
  obtain ⟨value, hpm⟩ := ParseMultiplier_prefixed rt.lower jobName pre nstr n hpre
  have hweek := ConfigureUnit_week rt jobName value (NormString rt.lower atExpr) dayOfTheMonth
    timezone
  have hrw : ∀ u ∈ EveryVocabulary,
      ParseTime rt jobName (pre ++ u) atExpr dayOfTheMonth timezone =
        match ConfigureUnit rt jobName value u (NormString rt.lower atExpr) dayOfTheMonth
          timezone with
        | .error e => .error e
        | .ok scheduler =>
          if NormString rt.lower atExpr ≠ DefaultAt then
            .ok (scheduler.call (.At (NormString rt.lower atExpr)))
          else .ok scheduler :=
    fun u hu => ParseTime_of_multiplier rt jobName _ atExpr dayOfTheMonth timezone value u
      (hpm u hu)
  refine ⟨?_, ?_, ?_, ?_⟩
  · intro u hu s
    obtain ⟨hv1, hv2⟩ := SingularUnits_vocabulary u hu
    have hs : u ++ "s".toList = u ++ ['s'] := rfl
    rw [hs, hrw u hv1, hrw _ hv2]
    rcases ConfigureUnit_plural rt jobName value u (NormString rt.lower atExpr) dayOfTheMonth
      timezone hu with heq | ⟨e1, e2, h1, h2⟩
    · rw [heq]
    · rw [h1, h2]
      simp
  · rw [hrw _ (by decide), hrw _ (by decide), hweek.1]
  · rw [hrw _ (by decide), hrw _ (by decide), hweek.2.1]
  · rw [hrw _ (by decide), hrw _ (by decide), hweek.2.2]

/-- A worked case of C12: `3 minute` against `3 minutes`, with an `at` that
makes both fail, and `3 week` against `3 sunday`. -/
theorem ParseTime_singular_plural_witness :
    (Atoi "3".toList = some 3 ∧ "3 ".toList = "3".toList ++ [' '])
      ∧ (∀ s, ParseTime exampleRuntime "J".toList ("3 ".toList ++ "minute".toList)
            "2:15".toList 1 .Local = .ok s
          ↔ ParseTime exampleRuntime "J".toList ("3 ".toList ++ ("minute".toList ++ "s".toList))
            "2:15".toList 1 .Local = .ok s)
      ∧ ParseTime exampleRuntime "J".toList ("3 ".toList ++ "week".toList) "2:15".toList 1
          .Local
        = ParseTime exampleRuntime "J".toList ("3 ".toList ++ "sunday".toList) "2:15".toList 1
          .Local
      ∧ ParseTime exampleRuntime "J".toList ("3 ".toList ++ "week".toList) "2:15".toList 1
          .Local
        = .ok { location := .Local
                calls := [.EveryInt 3, .Weeks, .Sunday, .At "2:15".toList] } :=
  ⟨⟨by decide, by decide⟩,
    (ParseTime_singular_plural exampleRuntime "J".toList "2:15".toList 1 .Local "3 ".toList
      "3".toList 3 (Or.inr ⟨by decide, by decide⟩)).1 "minute".toList (by decide),
    (ParseTime_singular_plural exampleRuntime "J".toList "2:15".toList 1 .Local "3 ".toList
      "3".toList 3 (Or.inr ⟨by decide, by decide⟩)).2.1,
    by decide⟩

/-! ## The command line and the commands -/

/-- C13: for an argument list of length 1 `Run` returns the error
`No configuration file with jobs to run. Usage: rept <path/to/job_config.toml>`,
and for an argument list of length greater than 2 the error
`Arguments not understood. Usage: rept <path/to/job_config.toml>`; in both
cases it has done nothing: no configuration file is read, no job is set up. -/
theorem Run_usage_errors (rt : Runtime) (disk : Disk) (args : List Str) :
    (args.length = 1 →
        Run rt disk args
          = some (some ("No configuration file with jobs to run. Usage: rept "
              ++ "<path/to/job_config.toml>").toList, []))
      ∧ (args.length > 2 →
        Run rt disk args
          = some (some "Arguments not understood. Usage: rept <path/to/job_config.toml>".toList,
              [])) := by
  constructor
  · intro h
    simp only [Run, h, if_true]
    rfl
  · intro h
    have h1 : ¬ args.length = 1 := by omega
    simp only [Run, h1, if_false, h, if_true]

/-- A worked case of C13: the argument lists `prog` and `prog 1 2`. -/
theorem Run_usage_errors_witness :
    Run exampleRuntime exampleDisk ["prog".toList]
        = some (some ("No configuration file with jobs to run. Usage: rept "
            ++ "<path/to/job_config.toml>").toList, [])
      ∧ Run exampleRuntime exampleDisk ["prog".toList, "1".toList, "2".toList]
        = some (some "Arguments not understood. Usage: rept <path/to/job_config.toml>".toList,
            []) :=
  ⟨(Run_usage_errors exampleRuntime exampleDisk ["prog".toList]).1 (by decide),
    (Run_usage_errors exampleRuntime exampleDisk
      ["prog".toList, "1".toList, "2".toList]).2 (by decide)⟩

theorem Schedule_registered_cmd (rt : Runtime) (jobName : Str) (job : Job)
    (s : Scheduler) (n : Str) (cmd : List Str)
    (h : Event.DoRegistered s n cmd ∈ (Schedule rt jobName job).2) :
    n = jobName ∧ cmd = job.Cmd := by
  unfold Schedule at h
  simp only at h
  split at h
  · simp at h
  · split at h
    · simp at h
    · simp only [List.mem_cons, Event.DoRegistered.injEq, List.mem_singleton,
        List.not_mem_nil, or_false, false_or, reduceCtorEq] at h
      exact ⟨h.2.1, h.2.2⟩

theorem Schedule_no_schedule_event (rt : Runtime) (jobName : Str) (job : Job)
    (n : Str) (j : Job) : Event.ScheduleCalled n j ∉ (Schedule rt jobName job).2 := by
  unfold Schedule
  simp only
  split
  · simp
  · split <;> simp

theorem SetupJobsLoop_cmd (rt : Runtime) (options : Options) :
    ∀ jobs : List (Str × Job),
      (∀ n j, Event.ScheduleCalled n j ∈ (SetupJobsLoop rt options jobs).2 → j.Cmd ≠ [])
        ∧ ∀ s n cmd, Event.DoRegistered s n cmd ∈ (SetupJobsLoop rt options jobs).2 →
            cmd ≠ [] := by
  intro jobs
  induction jobs with
  | nil => simp [SetupJobsLoop]
  | cons p rest ih =>
    obtain ⟨jobName, job⟩ := p
    by_cases hc : job.Cmd.length = 0
    · simp [SetupJobsLoop, hc]
    · by_cases he : job.Every = []
      · simp [SetupJobsLoop, hc, he]
      · have hcmd : (if job.Timezone = [] then { job with Timezone := options.Timezone }
            else job).Cmd = job.Cmd := by
          split <;> rfl
        have hne : job.Cmd ≠ [] := by
          intro hnil
          rw [hnil] at hc
          simp at hc
        have hreg := Schedule_registered_cmd rt jobName
          (if job.Timezone = [] then { job with Timezone := options.Timezone } else job)
        have hnos := Schedule_no_schedule_event rt jobName
          (if job.Timezone = [] then { job with Timezone := options.Timezone } else job)
        cases hS : Schedule rt jobName
            (if job.Timezone = [] then { job with Timezone := options.Timezone } else job) with
        | mk r events =>
          rw [hS] at hreg hnos
          cases r with
          | some e2 =>
            constructor
            · intro n j hm
              simp only [SetupJobsLoop, hc, he, if_false, hS, List.mem_cons,
                Event.ScheduleCalled.injEq] at hm
              rcases hm with ⟨_, hj⟩ | hm
              · rw [hj, hcmd]; exact hne
              · exact absurd hm (hnos n j)
            · intro s n cmd hm
              simp only [SetupJobsLoop, hc, he, if_false, hS, List.mem_cons, reduceCtorEq,
                false_or] at hm
              rw [(hreg s n cmd hm).2, hcmd]
              exact hne
          | none =>
            constructor
            · intro n j hm
              simp only [SetupJobsLoop, hc, he, if_false, hS, List.mem_cons,
                Event.ScheduleCalled.injEq, List.cons_append, List.mem_append] at hm
              rcases hm with ⟨_, hj⟩ | hm | hm
              · rw [hj, hcmd]; exact hne
              · exact absurd hm (hnos n j)
              · exact ih.1 n j hm
            · intro s n cmd hm
              simp only [SetupJobsLoop, hc, he, if_false, hS, List.mem_cons, reduceCtorEq,
                false_or, List.cons_append, List.mem_append] at hm
              rcases hm with hm | hm
              · rw [(hreg s n cmd hm).2, hcmd]
                exact hne
              · exact ih.2 s n cmd hm

/-- C14: every job that `SetupJobs` hands to `Schedule` has a non-empty `Cmd`,
and every command that `SetupJobs` registers as the argument of `Execute` is
non-empty, so that `Execute` finds `cmd[0]` and `cmd[1:]` and starts the
program. -/
theorem SetupJobs_registers_nonempty_cmd (rt : Runtime) (config : Config) :
    (∀ jobName job, Event.ScheduleCalled jobName job ∈ (SetupJobs rt config).2 →
        job.Cmd ≠ [])
      ∧ ∀ s jobName cmd, Event.DoRegistered s jobName cmd ∈ (SetupJobs rt config).2 →
          ∃ prog arguments, cmd = prog :: arguments
            ∧ ∀ output, (Execute output jobName cmd).2 = some (prog, arguments) := by
  obtain ⟨h1, h2⟩ := SetupJobsLoop_cmd rt config.Options config.Jobs
  refine ⟨h1, ?_⟩
  intro s jobName cmd hm
  obtain ⟨prog, arguments, hcmd⟩ := List.exists_cons_of_ne_nil (h2 s jobName cmd hm)
  refine ⟨prog, arguments, hcmd, fun output => ?_⟩
  rw [hcmd]
  unfold Execute
  simp only
  split <;> rfl

/-- A worked case of C14: the job `BackupDaily` of `exampleConfig`, registered
with the command `ls -lha`. -/
theorem SetupJobs_registers_nonempty_cmd_witness :
    Event.DoRegistered { location := .Local, calls := [.EveryInt 1, .Days, .At "2:15".toList] }
        "BackupDaily".toList ["ls".toList, "-lha".toList]
        ∈ (SetupJobs exampleRuntime exampleConfig).2
      ∧ ∃ prog arguments, ["ls".toList, "-lha".toList] = prog :: arguments
        ∧ ∀ output, (Execute output "BackupDaily".toList ["ls".toList, "-lha".toList]).2
            = some (prog, arguments) :=
  ⟨by decide,
    (SetupJobs_registers_nonempty_cmd exampleRuntime exampleConfig).2
      { location := .Local, calls := [.EveryInt 1, .Days, .At "2:15".toList] }
      "BackupDaily".toList ["ls".toList, "-lha".toList] (by decide)⟩

/-! ## The interval of a schedule of less than a day -/

theorem MulDuration_of_int64 (a b : Int) (h0 : -(2 : Int) ^ 63 ≤ a * b)
    (h1 : a * b < (2 : Int) ^ 63) : MulDuration a b = a * b := by
  unfold MulDuration
  rw [Int.emod_eq_of_lt (by omega) (by omega)]
  omega

/-- C15 fails as stated: `ParseTime` accepts `2562048 hours`, and the 64-bit
product of 2562048 and `time.Hour` wraps: the interval handed to the scheduler
is negative, not 2562048 times 3600 * 10^9 nanoseconds. -/
theorem ParseTime_interval_wraps :
    Atoi "2562048".toList = some 2562048
      ∧ ParseTime exampleRuntime "J".toList "2562048 hours".toList "__default__".toList 1 .Local
        = .ok { location := .Local
                calls := [.EveryDuration (-9223371273709551616), .StartAt 0] }
      ∧ Scheduler.interval? { location := .Local
                              calls := [.EveryDuration (-9223371273709551616), .StartAt 0] }
        = some (-9223371273709551616)
      ∧ (-9223371273709551616 : Int) ≠ 2562048 * UnitLength "hours".toList := by
  decide

/-- C15, as the program has it: for a multiplier `n` that `ParseTime` accepts
with a unit among second(s), minute(s), hour(s), and whose product with the
length of the unit lies within the 64-bit range, the interval handed to the
scheduler is exactly `n` times the length of the unit in nanoseconds
(`n * 10^9`, `n * 60 * 10^9`, `n * 3600 * 10^9`). -/
theorem ParseTime_interval_exact (rt : Runtime) (jobName every atExpr : Str)
    (dayOfTheMonth : Int) (timezone : Location) (nstr u : Str) (n : Int) (s : Scheduler)
    (hu : u ∈ SubDayUnits)
    (hform : (NormString rt.lower every = u ∧ n = 1)
      ∨ (NormString rt.lower every = nstr ++ ' ' :: u ∧ Atoi nstr = some n))
    (hok : ParseTime rt jobName every atExpr dayOfTheMonth timezone = .ok s)
    (hfit : -(2 : Int) ^ 63 ≤ n * UnitLength u ∧ n * UnitLength u < (2 : Int) ^ 63) :
    s.interval? = some (n * UnitLength u) := by
  have hpm : ParseMultiplier jobName (NormString rt.lower every) = .ok (n, u) := by
    rcases hform with ⟨h, h1⟩ | ⟨h, hn⟩
    · rw [h, h1]; exact ParseMultiplier_unit jobName u (SubDayUnits_no_space u hu)
    · rw [h]; exact ParseMultiplier_count jobName nstr u n hn
  rw [ParseTime_of_multiplier rt jobName every atExpr dayOfTheMonth timezone n u hpm,
    ConfigureUnit_subday rt jobName n u _ dayOfTheMonth timezone hu] at hok
  by_cases hat : NormString rt.lower atExpr = DefaultAt
  · simp only [hat, ne_eq, not_true_eq_false, if_false, Except.ok.injEq] at hok
    rw [← hok, MulDuration_of_int64 n (UnitLength u) hfit.1 hfit.2]
    simp [Scheduler.interval?, List.findSome?]
  · simp [hat] at hok

/-- A worked case of C15: `-3 hours`, an interval of minus three hours. -/
theorem ParseTime_interval_exact_witness :
    "hours".toList ∈ SubDayUnits
      ∧ NormString exampleRuntime.lower "-3 hours".toList
          = "-3".toList ++ ' ' :: "hours".toList
      ∧ Atoi "-3".toList = some (-3)
      ∧ ParseTime exampleRuntime "J".toList "-3 hours".toList "__default__".toList 1 .Local
          = .ok { location := .Local, calls := [.EveryDuration (-3 * Hour), .StartAt 0] }
      ∧ (-(2 : Int) ^ 63 ≤ -3 * UnitLength "hours".toList
          ∧ -3 * UnitLength "hours".toList < (2 : Int) ^ 63)
      ∧ Scheduler.interval?
          { location := .Local, calls := [.EveryDuration (-3 * Hour), .StartAt 0] }
        = some (-3 * UnitLength "hours".toList) :=
  ⟨by decide, by decide, by decide, by decide, by decide,
    ParseTime_interval_exact exampleRuntime "J".toList "-3 hours".toList "__default__".toList
      1 .Local "-3".toList "hours".toList (-3)
      { location := .Local, calls := [.EveryDuration (-3 * Hour), .StartAt 0] }
      (by decide) (Or.inr ⟨by decide, by decide⟩) (by decide) (by decide)⟩

/-! ## The canonical form -/

theorem ReplaceRuns_canonical (s : Str) :
    ∀ b, (∀ c ∈ ReplaceRuns b s, IsReSpace c = true → c = ' ')
      ∧ List.Chain' (fun x y : Char => ¬ (x = ' ' ∧ y = ' ')) (ReplaceRuns b s)
      ∧ (b = true → (ReplaceRuns b s).head? ≠ some ' ') := by
  induction s with
  | nil => intro b; simp [ReplaceRuns]
  | cons c cs ih =>
    intro b
    by_cases hc : IsReSpace c = true
    · cases b with
      | true =>
        have := ih true
        simpa [ReplaceRuns, hc] using this
      | false =>
        obtain ⟨h1, h2, h3⟩ := ih true
        have hrw : ReplaceRuns false (c :: cs) = ' ' :: ReplaceRuns true cs := by
          simp [ReplaceRuns, hc]
        rw [hrw]
        refine ⟨?_, ?_, by simp⟩
        · intro x hx hsp
          rcases List.mem_cons.mp hx with hx | hx
          · exact hx
          · exact h1 x hx hsp
        · rw [List.chain'_cons']
          refine ⟨?_, h2⟩
          intro y hy hxy
          have hy2 : (ReplaceRuns true cs).head? = some y := hy
          rw [hxy.2] at hy2
          exact h3 rfl hy2
    · obtain ⟨h1, h2, _⟩ := ih false
      have hrw : ReplaceRuns b (c :: cs) = c :: ReplaceRuns false cs := by
        simp [ReplaceRuns, hc]
      have hne : c ≠ ' ' := by
        intro hsp
        rw [hsp] at hc
        exact hc (by decide)
      rw [hrw]
      refine ⟨?_, ?_, ?_⟩
      · intro x hx hsp
        rcases List.mem_cons.mp hx with hx | hx
        · rw [hx] at hsp
          exact absurd hsp hc
        · exact h1 x hx hsp
      · rw [List.chain'_cons']
        exact ⟨fun y _ hxy => hne hxy.1, h2⟩
      · intro _ hhead
        simp only [List.head?_cons, Option.some.injEq] at hhead
        exact hne hhead

theorem NormString_mem (lower : Char → Char) (s : Str) (c : Char)
    (hc : c ∈ NormString lower s) : c = ' ' ∨ ∃ x, ToLowerRune lower x = c := by
  rcases ReplaceRuns_mem _ c false hc with h1 | h1
  · exact Or.inl h1
  · right
    have h2 : c ∈ ToLower lower s :=
      (List.dropWhile_suffix _).subset ((List.rdropWhile_prefix _ _).subset h1)
    obtain ⟨x, _, hx⟩ := List.mem_map.mp h2
    exact ⟨x, hx⟩

theorem ToLowerRune_not_upper_of_table (lower : Char → Char)
    (h : ∀ c : Char, 128 ≤ c.toNat → ¬ (65 ≤ (lower c).toNat ∧ (lower c).toNat ≤ 90))
    (c : Char) : ¬ (65 ≤ (ToLowerRune lower c).toNat ∧ (ToLowerRune lower c).toNat ≤ 90) := by
  by_cases h1 : c.toNat < 128
  · by_cases h2 : 65 ≤ c.toNat ∧ c.toNat ≤ 90
    · have hcc : c = Char.ofNat c.toNat := (Char.ofNat_toNat c).symm
      generalize c.toNat = n at h2 hcc
      subst hcc
      obtain ⟨h3, h4⟩ := h2
      have key : (ToLowerRune lower (Char.ofNat n)).toNat = n + 32 := by
        interval_cases n <;> rfl
      rw [key]
      omega
    · rw [ToLowerRune_of_not_upper lower c h1 h2]
      exact h2
  · have h3 : ToLowerRune lower c = lower c := by
      unfold ToLowerRune
      rw [if_neg h1]
    rw [h3]
    exact h c (by omega)

theorem exampleRuntime_lower_not_upper (c : Char) :
    ¬ (65 ≤ (ToLowerRune exampleRuntime.lower c).toNat
      ∧ (ToLowerRune exampleRuntime.lower c).toNat ≤ 90) := by
  apply ToLowerRune_not_upper_of_table
  intro x hx
  show ¬ (65 ≤ x.toNat ∧ x.toNat ≤ 90)
  omega

/-- C16: with a case table on which `unicode.ToLower` is idempotent and never
yields an upper-case ASCII letter, `NormString` is idempotent and its result is
in canonical form: it holds no upper-case ASCII letter, neither starts nor ends
with white space, and holds no space, tab, newline, form feed or carriage
return other than single spaces, no two of which are adjacent. -/
theorem NormString_canonical (lower : Char → Char)
    (hidem : ∀ c, ToLowerRune lower (ToLowerRune lower c) = ToLowerRune lower c)
    (hupper : ∀ c, ¬ (65 ≤ (ToLowerRune lower c).toNat ∧ (ToLowerRune lower c).toNat ≤ 90))
    (s : Str) :
    NormString lower (NormString lower s) = NormString lower s
      ∧ (∀ c ∈ NormString lower s, ¬ (65 ≤ c.toNat ∧ c.toNat ≤ 90))
      ∧ (∀ c, (NormString lower s).head? = some c → IsSpace c = false)
      ∧ (∀ c, (NormString lower s).getLast? = some c → IsSpace c = false)
      ∧ (∀ c ∈ NormString lower s,
          (c.toNat = 32 ∨ c.toNat = 9 ∨ c.toNat = 10 ∨ c.toNat = 12 ∨ c.toNat = 13) → c = ' ')
      ∧ List.Chain' (fun x y : Char => ¬ (x = ' ' ∧ y = ' ')) (NormString lower s) := by
  have htrim : Trimmed (NormString lower s) := ReplaceRuns_trimmed _ (TrimSpace_trimmed _)
  obtain ⟨h1, h2, _⟩ := ReplaceRuns_canonical (TrimSpace (ToLower lower s)) false
  refine ⟨NormString_idem lower hidem s, ?_, htrim.1, htrim.2, ?_, h2⟩
  · intro c hc
    rcases NormString_mem lower s c hc with hsp | ⟨x, hx⟩
    · rw [hsp]; decide
    · rw [← hx]; exact hupper x
  · intro c hc hws
    apply h1 c hc
    simp only [IsReSpace, decide_eq_true_eq]
    omega

/-- A worked case of C16: the text ` A  b` followed by a tab, a newline and `C `. -/
theorem NormString_canonical_witness :
    (∀ c, ToLowerRune exampleRuntime.lower (ToLowerRune exampleRuntime.lower c)
        = ToLowerRune exampleRuntime.lower c)
      ∧ (∀ c, ¬ (65 ≤ (ToLowerRune exampleRuntime.lower c).toNat
          ∧ (ToLowerRune exampleRuntime.lower c).toNat ≤ 90))
      ∧ NormString exampleRuntime.lower " A  b\t\nC ".toList = "a b c".toList
      ∧ NormString exampleRuntime.lower (NormString exampleRuntime.lower " A  b\t\nC ".toList)
        = NormString exampleRuntime.lower " A  b\t\nC ".toList
      ∧ List.Chain' (fun x y : Char => ¬ (x = ' ' ∧ y = ' '))
          (NormString exampleRuntime.lower " A  b\t\nC ".toList) :=
  ⟨exampleRuntime_lower_idem, exampleRuntime_lower_not_upper, by decide,
    (NormString_canonical exampleRuntime.lower exampleRuntime_lower_idem
      exampleRuntime_lower_not_upper " A  b\t\nC ".toList).1,
    (NormString_canonical exampleRuntime.lower exampleRuntime_lower_idem
      exampleRuntime_lower_not_upper " A  b\t\nC ".toList).2.2.2.2.2⟩

/-! ## The zone handed to the parser -/

theorem ConfigureUnit_error_zone (rt : Runtime) (jobName : Str) (value : Int) (u atExpr : Str)
    (dayOfTheMonth : Int) (z1 z2 : Location) (e : Str)
    (h : ConfigureUnit rt jobName value u atExpr dayOfTheMonth z1 = .error e) :
    ConfigureUnit rt jobName value u atExpr dayOfTheMonth z2 = .error e := by
  by_cases hu : u ∈ EveryVocabulary
  · by_cases hsub : u ∈ SubDayUnits
    · rw [ConfigureUnit_subday rt jobName value u atExpr dayOfTheMonth z1 hsub] at h
      rw [ConfigureUnit_subday rt jobName value u atExpr dayOfTheMonth z2 hsub]
      by_cases hat : atExpr = DefaultAt
      · simp [hat] at h
      · simpa [hat] using h
    · exfalso
      simp only [EveryVocabulary, List.mem_cons, List.mem_singleton, List.not_mem_nil,
        or_false] at hu
      simp only [SubDayUnits, List.mem_cons, List.mem_singleton, List.not_mem_nil,
        or_false, not_or] at hsub
      rcases hu with h1 | h1 | h1 | h1 | h1 | h1 | h1 | h1 | h1 | h1 | h1 | h1 | h1 | h1 | h1
        | h1 | h1 | h1 | h1 | h1 | h1 | h1 | h1 | h1 | h1 | h1 <;> subst h1 <;>
        first
        | exact absurd rfl hsub.1
        | exact absurd rfl hsub.2.1
        | exact absurd rfl hsub.2.2.1
        | exact absurd rfl hsub.2.2.2.1
        | exact absurd rfl hsub.2.2.2.2.1
        | exact absurd rfl hsub.2.2.2.2.2
        | (simp +decide [ConfigureUnit] at h)
  · rw [ConfigureUnit_invalid rt jobName value u atExpr dayOfTheMonth z1 hu] at h
    rw [ConfigureUnit_invalid rt jobName value u atExpr dayOfTheMonth z2 hu]
    exact h

theorem ParseTime_error_zone (rt : Runtime) (jobName every atExpr : Str)
    (dayOfTheMonth : Int) (z1 z2 : Location) (e : Str)
    (h : ParseTime rt jobName every atExpr dayOfTheMonth z1 = .error e) :
    ParseTime rt jobName every atExpr dayOfTheMonth z2 = .error e := by
  cases hpm : ParseMultiplier jobName (NormString rt.lower every) with
  | error e2 =>
    simp only [ParseTime, hpm] at h ⊢
    exact h
  | ok vu =>
    obtain ⟨value, u⟩ := vu
    rw [ParseTime_of_multiplier rt jobName every atExpr dayOfTheMonth z1 value u hpm] at h
    rw [ParseTime_of_multiplier rt jobName every atExpr dayOfTheMonth z2 value u hpm]
    cases hcu : ConfigureUnit rt jobName value u (NormString rt.lower atExpr) dayOfTheMonth
        z1 with
    | error e2 =>
      rw [hcu] at h
      rw [ConfigureUnit_error_zone rt jobName value u _ dayOfTheMonth z1 z2 e2 hcu]
      exact h
    | ok s =>
      rw [hcu] at h
      simp only at h
      split_ifs at h

theorem SetupJobsLoop_append (rt : Runtime) (options : Options) (rest : List (Str × Job)) :
    ∀ pre : List (Str × Job), (SetupJobsLoop rt options pre).1 = none →
      SetupJobsLoop rt options (pre ++ rest)
        = ((SetupJobsLoop rt options rest).1,
            (SetupJobsLoop rt options pre).2 ++ (SetupJobsLoop rt options rest).2) := by
  intro pre
  induction pre with
  | nil => intro _; simp [SetupJobsLoop]
  | cons p pre ih =>
    intro h
    obtain ⟨jobName, job⟩ := p
    by_cases hc : job.Cmd.length = 0
    · simp [SetupJobsLoop, hc] at h
    · by_cases he : job.Every = []
      · simp [SetupJobsLoop, hc, he] at h
      · cases hS : Schedule rt jobName
            (if job.Timezone = [] then { job with Timezone := options.Timezone } else job) with
        | mk r events =>
          cases r with
          | some e2 => simp [SetupJobsLoop, hc, he, hS] at h
          | none =>
            have hpre : (SetupJobsLoop rt options pre).1 = none := by
              simpa [SetupJobsLoop, hc, he, hS] using h
            have ih2 := ih hpre
            simp [SetupJobsLoop, hc, he, hS, ih2]

theorem SetupJobsLoop_visit (rt : Runtime) (options : Options) (jobName : Str) (job : Job)
    (rest : List (Str × Job)) (hcmd : job.Cmd ≠ []) (hevery : job.Every ≠ []) :
    SetupJobsLoop rt options ((jobName, job) :: rest)
      = match Schedule rt jobName { job with Timezone := EffectiveTimezone options job } with
        | (some e, events) =>
          (some e, .ScheduleCalled jobName
            { job with Timezone := EffectiveTimezone options job } :: events)
        | (none, events) =>
          ((SetupJobsLoop rt options rest).1,
            .ScheduleCalled jobName { job with Timezone := EffectiveTimezone options job }
              :: events ++ (SetupJobsLoop rt options rest).2) := by
  have hc : ¬ job.Cmd.length = 0 := by
    intro h
    exact hcmd (List.length_eq_zero.mp h)
  have hjob : (if job.Timezone = [] then { job with Timezone := options.Timezone } else job)
      = { job with Timezone := EffectiveTimezone options job } := by
    unfold EffectiveTimezone
    split <;> rfl
  simp only [SetupJobsLoop, hc, hevery, if_false, hjob]


theorem Schedule_of_parse_error (rt : Runtime) (jobName : Str) (job : Job) (e : Str)
    (h : ParseTime rt jobName job.Every (if job.At = [] then DefaultAt else job.At)
        (if job.DayOfMonth = 0 then 1 else job.DayOfMonth)
        (if ToLower rt.lower job.Timezone = "utc".toList then Location.UTC
          else Location.Local) = .error e) :
    Schedule rt jobName job
      = (some e, [Event.ParseTimeCalled jobName job.Every
          (if job.At = [] then DefaultAt else job.At)
          (if job.DayOfMonth = 0 then 1 else job.DayOfMonth)
          (if ToLower rt.lower job.Timezone = "utc".toList then Location.UTC
            else Location.Local)]) := by
  simp only [Schedule, h]

theorem Schedule_of_do_error (rt : Runtime) (jobName : Str) (job : Job) (s : Scheduler)
    (e : Str)
    (h : ParseTime rt jobName job.Every (if job.At = [] then DefaultAt else job.At)
        (if job.DayOfMonth = 0 then 1 else job.DayOfMonth)
        (if ToLower rt.lower job.Timezone = "utc".toList then Location.UTC
          else Location.Local) = .ok s)
    (hd : rt.doError s = some e) :
    Schedule rt jobName job
      = (some e, [Event.ParseTimeCalled jobName job.Every
          (if job.At = [] then DefaultAt else job.At)
          (if job.DayOfMonth = 0 then 1 else job.DayOfMonth)
          (if ToLower rt.lower job.Timezone = "utc".toList then Location.UTC
            else Location.Local)]) := by
  simp only [Schedule, h, hd]

theorem Schedule_of_accepted (rt : Runtime) (jobName : Str) (job : Job) (s : Scheduler)
    (h : ParseTime rt jobName job.Every (if job.At = [] then DefaultAt else job.At)
        (if job.DayOfMonth = 0 then 1 else job.DayOfMonth)
        (if ToLower rt.lower job.Timezone = "utc".toList then Location.UTC
          else Location.Local) = .ok s)
    (hd : rt.doError s = none) :
    Schedule rt jobName job
      = (none, [Event.ParseTimeCalled jobName job.Every
          (if job.At = [] then DefaultAt else job.At)
          (if job.DayOfMonth = 0 then 1 else job.DayOfMonth)
          (if ToLower rt.lower job.Timezone = "utc".toList then Location.UTC
            else Location.Local),
          .DoRegistered s jobName job.Cmd, .StartAsync s, .LogScheduled jobName]) := by
  simp only [Schedule, h, hd]

/-- C10: every job that `SetupJobs` reaches (the jobs before it set up without
error, its `Cmd` and `Every` not empty) is handed to `Schedule` with the
timezone name in force (its own when not empty, otherwise the one of the
options), and `ParseTime` is called for it with the zone UTC exactly when that
name is `utc` up to letter case, and with the local zone for every other name,
empty and unknown names included. The name raises no error: the error that
`SetupJobs` returns at this job is the one `ParseTime` or `scheduler.Do`
returns, the errors of `ParseTime` are the same in every zone, and when both
accept, `SetupJobs` goes on with the remaining jobs. Conversely every call of
`ParseTime` that `SetupJobs` makes is such a call, and `Schedule` behaves the
same for any two names other than `utc`. -/
theorem SetupJobs_timezone (rt : Runtime) (config : Config) (pre rest : List (Str × Job))
    (jobName : Str) (job : Job)
    (hjobs : config.Jobs = pre ++ (jobName, job) :: rest)
    (hpre : (SetupJobs rt { config with Jobs := pre }).1 = none)
    (hcmd : job.Cmd ≠ []) (hevery : job.Every ≠ []) :
    (∃ zone tail,
      (zone = .UTC ↔
          EqualIgnoringCase rt.lower (EffectiveTimezone config.Options job) "utc".toList)
        ∧ (¬ EqualIgnoringCase rt.lower (EffectiveTimezone config.Options job) "utc".toList →
            zone = .Local)
        ∧ (SetupJobs rt config).2
            = (SetupJobs rt { config with Jobs := pre }).2
              ++ (Event.ScheduleCalled jobName
                    { job with Timezone := EffectiveTimezone config.Options job }
                  :: Event.ParseTimeCalled jobName job.Every
                      (if job.At = [] then "__default__".toList else job.At)
                      (if job.DayOfMonth = 0 then 1 else job.DayOfMonth) zone
                  :: tail)
        ∧ (∀ e, ParseTime rt jobName job.Every
              (if job.At = [] then "__default__".toList else job.At)
              (if job.DayOfMonth = 0 then 1 else job.DayOfMonth) zone = .error e →
            (SetupJobs rt config).1 = some e)
        ∧ (∀ s e, ParseTime rt jobName job.Every
              (if job.At = [] then "__default__".toList else job.At)
              (if job.DayOfMonth = 0 then 1 else job.DayOfMonth) zone = .ok s →
            rt.doError s = some e → (SetupJobs rt config).1 = some e)
        ∧ (∀ s, ParseTime rt jobName job.Every
              (if job.At = [] then "__default__".toList else job.At)
              (if job.DayOfMonth = 0 then 1 else job.DayOfMonth) zone = .ok s →
            rt.doError s = none →
            (SetupJobs rt config).1 = (SetupJobs rt { config with Jobs := rest }).1)
        ∧ (∀ z e, ParseTime rt jobName job.Every
              (if job.At = [] then "__default__".toList else job.At)
              (if job.DayOfMonth = 0 then 1 else job.DayOfMonth) z = .error e ↔
            ParseTime rt jobName job.Every
              (if job.At = [] then "__default__".toList else job.At)
              (if job.DayOfMonth = 0 then 1 else job.DayOfMonth) zone = .error e))
      ∧ (∀ (n every atExpr : Str) (d : Int) (tz : Location),
          Event.ParseTimeCalled n every atExpr d tz ∈ (SetupJobs rt config).2 →
            ∃ job2, (n, job2) ∈ config.Jobs ∧ job2.Every = every
              ∧ (tz = .UTC ↔
                  EqualIgnoringCase rt.lower (EffectiveTimezone config.Options job2)
                    "utc".toList)
              ∧ (¬ EqualIgnoringCase rt.lower (EffectiveTimezone config.Options job2)
                    "utc".toList → tz = .Local))
      ∧ ∀ (job2 : Job) (name1 name2 : Str),
          ¬ EqualIgnoringCase rt.lower name1 "utc".toList →
          ¬ EqualIgnoringCase rt.lower name2 "utc".toList →
            Schedule rt jobName { job2 with Timezone := name1 }
              = Schedule rt jobName { job2 with Timezone := name2 } := by
  have hzone : ∀ (name : Str) (tz : Location),
      tz = (if ToLower rt.lower name = "utc".toList then Location.UTC else Location.Local) →
        (tz = .UTC ↔ EqualIgnoringCase rt.lower name "utc".toList)
          ∧ (¬ EqualIgnoringCase rt.lower name "utc".toList → tz = .Local) := by
    intro name tz htz
    unfold EqualIgnoringCase
    rw [ToLower_utc, htz]
    by_cases hutc : ToLower rt.lower name = "utc".toList
    · rw [if_pos hutc]
      exact ⟨⟨fun _ => hutc, fun _ => rfl⟩, fun hne => absurd hutc hne⟩
    · rw [if_neg hutc]
      exact ⟨⟨fun hloc => absurd hloc (by decide), fun hl => absurd hl hutc⟩, fun _ => rfl⟩
  refine ⟨?_, ?_, ?_⟩
  · have hrun : SetupJobs rt config
        = ((SetupJobsLoop rt config.Options ((jobName, job) :: rest)).1,
            (SetupJobs rt { config with Jobs := pre }).2
              ++ (SetupJobsLoop rt config.Options ((jobName, job) :: rest)).2) := by
      show SetupJobsLoop rt config.Options config.Jobs = _
      rw [hjobs]
      exact SetupJobsLoop_append rt config.Options _ pre hpre
    have hdef : "__default__".toList = DefaultAt := rfl
    rw [hrun, SetupJobsLoop_visit rt config.Options jobName job rest hcmd hevery, hdef]
    obtain ⟨hz1, hz2⟩ := hzone (EffectiveTimezone config.Options job) _ rfl
    refine ⟨if ToLower rt.lower (EffectiveTimezone config.Options job) = "utc".toList
      then Location.UTC else Location.Local, ?_⟩
    have hrest : (SetupJobs rt { config with Jobs := rest }).1
        = (SetupJobsLoop rt config.Options rest).1 := rfl
    cases hP : ParseTime rt jobName job.Every (if job.At = [] then DefaultAt else job.At)
        (if job.DayOfMonth = 0 then 1 else job.DayOfMonth)
        (if ToLower rt.lower (EffectiveTimezone config.Options job) = "utc".toList
          then Location.UTC else Location.Local) with
    | error e0 =>
      have hS := Schedule_of_parse_error rt jobName
        { job with Timezone := EffectiveTimezone config.Options job } e0 hP
      rw [hS]
      refine ⟨[], hz1, hz2, rfl, ?_, ?_, ?_, ?_⟩
      · intro e he
        simp only [Except.error.injEq] at he
        rw [he]
      · intro s e hs
        exact absurd hs (by simp)
      · intro s hs
        exact absurd hs (by simp)
      · intro z e
        constructor
        · intro hz
          rw [← hP]
          exact ParseTime_error_zone rt jobName _ _ _ z _ e hz
        · intro hz
          rw [← hP] at hz
          exact ParseTime_error_zone rt jobName _ _ _ _ z e hz
    | ok s0 =>
      have hzerr : ∀ z e, ParseTime rt jobName job.Every
            (if job.At = [] then DefaultAt else job.At)
            (if job.DayOfMonth = 0 then 1 else job.DayOfMonth) z = .error e ↔
          (Except.ok s0 : Except Str Scheduler) = .error e := by
        intro z e
        constructor
        · intro hz
          rw [← hP]
          exact ParseTime_error_zone rt jobName _ _ _ z _ e hz
        · intro hz
          exact absurd hz (by simp)
      cases hD : rt.doError s0 with
      | some e0 =>
        have hS := Schedule_of_do_error rt jobName
          { job with Timezone := EffectiveTimezone config.Options job } s0 e0 hP hD
        rw [hS]
        refine ⟨[], hz1, hz2, rfl, ?_, ?_, ?_, hzerr⟩
        · intro e he
          exact absurd he (by simp)
        · intro s e hs he
          simp only [Except.ok.injEq] at hs
          rw [← hs, hD] at he
          simp only [Option.some.injEq] at he
          rw [he]
        · intro s hs hn
          simp only [Except.ok.injEq] at hs
          rw [← hs, hD] at hn
          exact absurd hn (by simp)
      | none =>
        have hS := Schedule_of_accepted rt jobName
          { job with Timezone := EffectiveTimezone config.Options job } s0 hP hD
        rw [hS]
        refine ⟨[.DoRegistered s0 jobName job.Cmd, .StartAsync s0, .LogScheduled jobName]
          ++ (SetupJobsLoop rt config.Options rest).2, hz1, hz2, by rfl, ?_, ?_, ?_, hzerr⟩
        · intro e he
          exact absurd he (by simp)
        · intro s e hs he
          simp only [Except.ok.injEq] at hs
          rw [← hs, hD] at he
          exact absurd he (by simp)
        · intro s _ _
          rw [hrest]
  · intro n every atExpr d tz h
    obtain ⟨job2, hm, h2, h3⟩ :=
      SetupJobsLoop_parse_event rt config.Options n every atExpr d tz config.Jobs h
    obtain ⟨hz1, hz2⟩ := hzone (EffectiveTimezone config.Options job2) tz h3
    exact ⟨job2, hm, h2, hz1, hz2⟩
  · intro job2 name1 name2 h1 h2
    unfold EqualIgnoringCase at h1 h2
    rw [ToLower_utc] at h1 h2
    simp only [Schedule, h1, h2, if_false]

/-- A worked case of C10: a job without timezone under the global name
`Mars/Olympus`, which is handed to `ParseTime` with the local zone and set up
without error; under the global name `UTC` the zone is UTC. -/
theorem SetupJobs_timezone_witness :
    (exampleConfigZone.Jobs = [] ++ ("BackupDaily".toList, exampleJobA) :: []
        ∧ (SetupJobs exampleRuntime { exampleConfigZone with Jobs := [] }).1 = none
        ∧ exampleJobA.Cmd ≠ [] ∧ exampleJobA.Every ≠ [])
      ∧ SetupJobs exampleRuntime exampleConfigZone
        = (none,
            [.ScheduleCalled "BackupDaily".toList
                { exampleJobA with Timezone := "Mars/Olympus".toList },
              .ParseTimeCalled "BackupDaily".toList "Day".toList "2:15".toList 1 .Local,
              .DoRegistered
                { location := .Local, calls := [.EveryInt 1, .Days, .At "2:15".toList] }
                "BackupDaily".toList ["ls".toList, "-lha".toList],
              .StartAsync
                { location := .Local, calls := [.EveryInt 1, .Days, .At "2:15".toList] },
              .LogScheduled "BackupDaily".toList])
      ∧ Event.ParseTimeCalled "BackupDaily".toList "Day".toList "2:15".toList 1 .UTC
        ∈ (SetupJobs exampleRuntime
            { Options := { LogPath := [], KeepLogsDays := 0, Timezone := "UTC".toList }
              Jobs := [("BackupDaily".toList, exampleJobA)] }).2
      ∧ ∃ zone tail,
        (zone = .UTC ↔
            EqualIgnoringCase exampleRuntime.lower
              (EffectiveTimezone exampleConfigZone.Options exampleJobA) "utc".toList)
          ∧ (¬ EqualIgnoringCase exampleRuntime.lower
                (EffectiveTimezone exampleConfigZone.Options exampleJobA) "utc".toList →
              zone = .Local)
          ∧ (SetupJobs exampleRuntime exampleConfigZone).2
              = (SetupJobs exampleRuntime { exampleConfigZone with Jobs := [] }).2
                ++ (Event.ScheduleCalled "BackupDaily".toList
                      { exampleJobA with
                        Timezone := EffectiveTimezone exampleConfigZone.Options exampleJobA }
                    :: Event.ParseTimeCalled "BackupDaily".toList exampleJobA.Every
                        (if exampleJobA.At = [] then "__default__".toList else exampleJobA.At)
                        (if exampleJobA.DayOfMonth = 0 then 1 else exampleJobA.DayOfMonth) zone
                    :: tail)
          ∧ (∀ e, ParseTime exampleRuntime "BackupDaily".toList exampleJobA.Every
                (if exampleJobA.At = [] then "__default__".toList else exampleJobA.At)
                (if exampleJobA.DayOfMonth = 0 then 1 else exampleJobA.DayOfMonth) zone
                  = .error e →
              (SetupJobs exampleRuntime exampleConfigZone).1 = some e)
          ∧ (∀ s e, ParseTime exampleRuntime "BackupDaily".toList exampleJobA.Every
                (if exampleJobA.At = [] then "__default__".toList else exampleJobA.At)
                (if exampleJobA.DayOfMonth = 0 then 1 else exampleJobA.DayOfMonth) zone
                  = .ok s →
              exampleRuntime.doError s = some e →
              (SetupJobs exampleRuntime exampleConfigZone).1 = some e)
          ∧ (∀ s, ParseTime exampleRuntime "BackupDaily".toList exampleJobA.Every
                (if exampleJobA.At = [] then "__default__".toList else exampleJobA.At)
                (if exampleJobA.DayOfMonth = 0 then 1 else exampleJobA.DayOfMonth) zone
                  = .ok s →
              exampleRuntime.doError s = none →
              (SetupJobs exampleRuntime exampleConfigZone).1
                = (SetupJobs exampleRuntime { exampleConfigZone with Jobs := [] }).1)
          ∧ (∀ z e, ParseTime exampleRuntime "BackupDaily".toList exampleJobA.Every
                (if exampleJobA.At = [] then "__default__".toList else exampleJobA.At)
                (if exampleJobA.DayOfMonth = 0 then 1 else exampleJobA.DayOfMonth) z
                  = .error e ↔
              ParseTime exampleRuntime "BackupDaily".toList exampleJobA.Every
                (if exampleJobA.At = [] then "__default__".toList else exampleJobA.At)
                (if exampleJobA.DayOfMonth = 0 then 1 else exampleJobA.DayOfMonth) zone
                  = .error e) :=
  ⟨⟨by decide, by decide, by decide, by decide⟩, by decide, by decide,
    (SetupJobs_timezone exampleRuntime exampleConfigZone [] [] "BackupDaily".toList
      exampleJobA (by decide) (by decide) (by decide) (by decide)).1⟩

/-! ## Inputs with the same normal form -/

theorem dropWhile_append_all (p : Char → Bool) (w l : Str) (h : ∀ c ∈ w, p c = true) :
    (w ++ l).dropWhile p = l.dropWhile p := by
  induction w with
  | nil => rfl
  | cons c cs ih =>
    rw [List.cons_append, List.dropWhile_cons, if_pos (h c (List.mem_cons_self _ _))]
    exact ih (fun x hx => h x (List.mem_cons_of_mem _ hx))

theorem dropWhile_all (p : Char → Bool) (w : Str) (h : ∀ c ∈ w, p c = true) :
    w.dropWhile p = [] := by
  have := dropWhile_append_all p w [] h
  simpa using this

theorem rdropWhile_append_all (p : Char → Bool) (w l : Str) (h : ∀ c ∈ w, p c = true) :
    (l ++ w).rdropWhile p = l.rdropWhile p := by
  unfold List.rdropWhile
  rw [List.reverse_append, dropWhile_append_all p w.reverse l.reverse
    (fun c hc => h c (List.mem_reverse.mp hc))]

theorem dropWhile_append_of_exists (p : Char → Bool) (a b : Str)
    (h : ∃ c ∈ a, p c = false) : (a ++ b).dropWhile p = a.dropWhile p ++ b := by
  induction a with
  | nil => obtain ⟨c, hc, _⟩ := h; simp at hc
  | cons x xs ih =>
    by_cases hx : p x = true
    · rw [List.cons_append, List.dropWhile_cons, if_pos hx, List.dropWhile_cons, if_pos hx]
      apply ih
      obtain ⟨c, hc, hpc⟩ := h
      rcases List.mem_cons.mp hc with rfl | hc
      · rw [hx] at hpc; exact absurd hpc (by simp)
      · exact ⟨c, hc, hpc⟩
    · rw [List.cons_append, List.dropWhile_cons, if_neg hx, List.dropWhile_cons, if_neg hx,
        List.cons_append]

theorem rdropWhile_append_of_exists (p : Char → Bool) (a b : Str)
    (h : ∃ c ∈ b, p c = false) : (a ++ b).rdropWhile p = a ++ b.rdropWhile p := by
  unfold List.rdropWhile
  rw [List.reverse_append, dropWhile_append_of_exists p b.reverse a.reverse
    (by obtain ⟨c, hc, hpc⟩ := h; exact ⟨c, List.mem_reverse.mpr hc, hpc⟩),
    List.reverse_append, List.reverse_reverse]

theorem exists_of_not_all (p : Char → Bool) (s : Str) (h : ¬ ∀ c ∈ s, p c = true) :
    ∃ c ∈ s, p c = false := by
  by_contra hcon
  apply h
  intro c hc
  cases hp : p c with
  | true => rfl
  | false => exact absurd ⟨c, hc, hp⟩ hcon

theorem TrimSpace_padding (s w1 w2 : Str) (h1 : ∀ c ∈ w1, IsSpace c = true)
    (h2 : ∀ c ∈ w2, IsSpace c = true) : TrimSpace (w1 ++ s ++ w2) = TrimSpace s := by
  unfold TrimSpace
  rw [List.append_assoc, dropWhile_append_all IsSpace w1 _ h1]
  by_cases hs : ∀ c ∈ s, IsSpace c = true
  · rw [dropWhile_all IsSpace s hs, dropWhile_all IsSpace (s ++ w2)
      (fun c hc => (List.mem_append.mp hc).elim (hs c) (h2 c))]
  · rw [dropWhile_append_of_exists IsSpace s w2 (exists_of_not_all IsSpace s hs),
      rdropWhile_append_all IsSpace w2 _ h2]

theorem ReplaceRuns_cons_space (c : Char) (l : Str) (hc : IsReSpace c = true) (b : Bool) :
    ReplaceRuns b (c :: l) = (if b = true then [] else [' ']) ++ ReplaceRuns true l := by
  cases b <;> simp [ReplaceRuns, hc]

theorem ReplaceRuns_run (r y : Str) (hne : r ≠ []) (hr : ∀ c ∈ r, IsReSpace c = true) :
    ∀ b, ReplaceRuns b (r ++ y)
      = (if b = true then [] else [' ']) ++ ReplaceRuns true y := by
  induction r with
  | nil => exact absurd rfl hne
  | cons c cs ih =>
    intro b
    have hc := hr c (List.mem_cons_self _ _)
    rw [List.cons_append, ReplaceRuns_cons_space c _ hc b]
    cases cs with
    | nil => rfl
    | cons d ds =>
      have ih2 := ih (by simp) (fun x hx => hr x (List.mem_cons_of_mem _ hx)) true
      rw [ih2]
      rfl

theorem ReplaceRuns_inner (y r1 r2 : Str) (hne1 : r1 ≠ []) (hne2 : r2 ≠ [])
    (hr1 : ∀ c ∈ r1, IsReSpace c = true) (hr2 : ∀ c ∈ r2, IsReSpace c = true) (x : Str) :
    ∀ b, ReplaceRuns b (x ++ r1 ++ y) = ReplaceRuns b (x ++ r2 ++ y) := by
  induction x with
  | nil =>
    intro b
    rw [List.nil_append, List.nil_append, ReplaceRuns_run r1 y hne1 hr1 b,
      ReplaceRuns_run r2 y hne2 hr2 b]
  | cons c cs ih =>
    intro b
    have e1 : c :: cs ++ r1 ++ y = c :: (cs ++ r1 ++ y) := rfl
    have e2 : c :: cs ++ r2 ++ y = c :: (cs ++ r2 ++ y) := rfl
    rw [e1, e2, ReplaceRuns, ReplaceRuns, ih true, ih false]

theorem Normalise_inner (x y r1 r2 : Str) (hne1 : r1 ≠ []) (hne2 : r2 ≠ [])
    (hr1 : ∀ c ∈ r1, IsReSpace c = true) (hr2 : ∀ c ∈ r2, IsReSpace c = true) :
    ReplaceAllSpace (TrimSpace (x ++ r1 ++ y)) = ReplaceAllSpace (TrimSpace (x ++ r2 ++ y)) := by
  have hs1 : ∀ c ∈ r1, IsSpace c = true := fun c hc => IsSpace_of_IsReSpace c (hr1 c hc)
  have hs2 : ∀ c ∈ r2, IsSpace c = true := fun c hc => IsSpace_of_IsReSpace c (hr2 c hc)
  by_cases hx : ∀ c ∈ x, IsSpace c = true
  · have e1 : TrimSpace (x ++ r1 ++ y) = TrimSpace y := by
      have := TrimSpace_padding y (x ++ r1) []
        (fun c hc => (List.mem_append.mp hc).elim (hx c) (hs1 c)) (by simp)
      simpa using this
    have e2 : TrimSpace (x ++ r2 ++ y) = TrimSpace y := by
      have := TrimSpace_padding y (x ++ r2) []
        (fun c hc => (List.mem_append.mp hc).elim (hx c) (hs2 c)) (by simp)
      simpa using this
    rw [e1, e2]
  · by_cases hy : ∀ c ∈ y, IsSpace c = true
    · have e1 : TrimSpace (x ++ r1 ++ y) = TrimSpace x := by
        have := TrimSpace_padding x [] (r1 ++ y) (by simp)
          (fun c hc => (List.mem_append.mp hc).elim (hs1 c) (hy c))
        simpa using this
      have e2 : TrimSpace (x ++ r2 ++ y) = TrimSpace x := by
        have := TrimSpace_padding x [] (r2 ++ y) (by simp)
          (fun c hc => (List.mem_append.mp hc).elim (hs2 c) (hy c))
        simpa using this
      rw [e1, e2]
    · have hex := exists_of_not_all IsSpace x hx
      have hey := exists_of_not_all IsSpace y hy
      have shape : ∀ r : Str, TrimSpace (x ++ r ++ y)
          = x.dropWhile IsSpace ++ r ++ y.rdropWhile IsSpace := by
        intro r
        unfold TrimSpace
        rw [List.append_assoc, dropWhile_append_of_exists IsSpace x (r ++ y) hex,
          ← List.append_assoc, rdropWhile_append_of_exists IsSpace _ y hey]
      rw [shape r1, shape r2]
      exact ReplaceRuns_inner _ r1 r2 hne1 hne2 hr1 hr2 _ false

theorem ToLower_of_respace (lower : Char → Char) (r : Str)
    (hr : ∀ c ∈ r, IsReSpace c = true) : ToLower lower r = r := by
  apply ToLower_of_fixed
  intro c hc
  have h := hr c hc
  simp only [IsReSpace, decide_eq_true_eq] at h
  exact ToLowerRune_of_not_upper lower c (by omega) (by omega)

theorem ToLower_append (lower : Char → Char) (a b : Str) :
    ToLower lower (a ++ b) = ToLower lower a ++ ToLower lower b := by
  unfold ToLower
  rw [List.map_append]

theorem NormString_of_variant (lower : Char → Char)
    (hws : ∀ c, IsSpace c = true → IsSpace (ToLowerRune lower c) = true) (s t : Str)
    (h : LayoutVariant lower s t) : NormString lower s = NormString lower t := by
  induction h with
  | letterCase s t hst =>
    unfold EqualIgnoringCase at hst
    unfold NormString
    rw [hst]
  | padding s w1 w2 h1 h2 =>
    have hl : ∀ w : Str, (∀ c ∈ w, IsSpace c = true) →
        ∀ c ∈ ToLower lower w, IsSpace c = true := by
      intro w hw c hc
      obtain ⟨x, hx, hxc⟩ := List.mem_map.mp hc
      rw [← hxc]
      exact hws x (hw x hx)
    unfold NormString
    rw [ToLower_append, ToLower_append,
      TrimSpace_padding _ _ _ (hl w1 h1) (hl w2 h2)]
  | runLength x y r1 r2 hne1 hne2 hr1 hr2 =>
    unfold NormString
    rw [ToLower_append, ToLower_append, ToLower_append, ToLower_append,
      ToLower_of_respace lower r1 hr1, ToLower_of_respace lower r2 hr2]
    exact Normalise_inner _ _ r1 r2 hne1 hne2 hr1 hr2
  | symm s t _ ih => exact ih.symm
  | trans s t u _ _ ih1 ih2 => exact ih1.trans ih2

theorem ToLowerRune_white_of_table (lower : Char → Char)
    (h : ∀ c : Char, 128 ≤ c.toNat → IsSpace c = true → IsSpace (lower c) = true)
    (c : Char) (hc : IsSpace c = true) : IsSpace (ToLowerRune lower c) = true := by
  by_cases h1 : c.toNat < 128
  · by_cases h2 : 65 ≤ c.toNat ∧ c.toNat ≤ 90
    · exfalso
      simp only [IsSpace, decide_eq_true_eq] at hc
      omega
    · rw [ToLowerRune_of_not_upper lower c h1 h2]
      exact hc
  · have h3 : ToLowerRune lower c = lower c := by
      unfold ToLowerRune
      rw [if_neg h1]
    rw [h3]
    exact h c (by omega) hc

theorem exampleRuntime_lower_white (c : Char) (hc : IsSpace c = true) :
    IsSpace (ToLowerRune exampleRuntime.lower c) = true := by
  apply ToLowerRune_white_of_table _ _ c hc
  intro x _ hx
  exact hx


/-- C5 fails as stated: the vertical tab and the no-break space are white
space that `NormString` strips at the ends of a text, but it keeps inner runs
of them as they are: `every` values that differ only in the length of an inner
run of white space give different results, and so do `at` values. -/
theorem ParseTime_distinguishes_inner_white_space :
    (IsSpace (Char.ofNat 11) = true ∧ IsSpace (Char.ofNat 160) = true)
      ∧ NormString exampleRuntime.lower "\x0b day\u00a0".toList = "day".toList
      ∧ ParseTime exampleRuntime "J".toList "5 \x0b\x0b minutes".toList "__default__".toList 1
          .Local
        ≠ ParseTime exampleRuntime "J".toList "5 \x0b minutes".toList "__default__".toList 1
          .Local
      ∧ ParseTime exampleRuntime "J".toList "day".toList "2:15\u00a0\u00a0pm".toList 1 .Local
        = .ok { location := .Local
                calls := [.EveryInt 1, .Days, .At "2:15\u00a0\u00a0pm".toList] }
      ∧ ParseTime exampleRuntime "J".toList "day".toList "2:15\u00a0pm".toList 1 .Local
        = .ok { location := .Local
                calls := [.EveryInt 1, .Days, .At "2:15\u00a0pm".toList] }
      ∧ ParseTime exampleRuntime "J".toList "day".toList "2:15\u00a0\u00a0pm".toList 1 .Local
        ≠ ParseTime exampleRuntime "J".toList "day".toList "2:15\u00a0pm".toList 1 .Local := by
  decide

theorem exampleVariant :
    LayoutVariant exampleRuntime.lower "5 Minutes".toList "  5   minutes ".toList := by
  have h1 : LayoutVariant exampleRuntime.lower "5 Minutes".toList "5 minutes".toList :=
    LayoutVariant.letterCase _ _ (by unfold EqualIgnoringCase; decide)
  have h2 : LayoutVariant exampleRuntime.lower "5 minutes".toList "5   minutes".toList :=
    LayoutVariant.runLength "5".toList "minutes".toList " ".toList "   ".toList
      (by decide) (by decide) (by decide) (by decide)
  have h3 : LayoutVariant exampleRuntime.lower "5   minutes".toList "  5   minutes ".toList :=
    LayoutVariant.padding "5   minutes".toList "  ".toList " ".toList (by decide) (by decide)
  exact LayoutVariant.trans _ _ _ (LayoutVariant.trans _ _ _ h1 h2) h3

/-- C5, as amended: `ParseTime` reads `every` and `at` only through their
normalised form. With a case table on which `unicode.ToLower` is idempotent and
keeps white space white, `ParseTime` gives, for the same job name, day of the
month, zone and clock, the same result (the same schedule or the same error
message) on `every`, `at` as on `NormString(every)`, `NormString(at)`; two pairs
of inputs with the same normalised forms give the same result; hence inputs
that differ only in letter case, in leading or trailing white space, or in the
length of inner runs of space, tab, newline, form feed and carriage return
give the same result. -/
theorem ParseTime_through_NormString (rt : Runtime) (jobName every atExpr : Str)
    (dayOfTheMonth : Int) (timezone : Location)
    (hlower : ∀ c, ToLowerRune rt.lower (ToLowerRune rt.lower c) = ToLowerRune rt.lower c)
    (hws : ∀ c, IsSpace c = true → IsSpace (ToLowerRune rt.lower c) = true) :
    ParseTime rt jobName every atExpr dayOfTheMonth timezone
        = ParseTime rt jobName (NormString rt.lower every) (NormString rt.lower atExpr)
            dayOfTheMonth timezone
      ∧ (∀ every2 atExpr2 : Str,
          NormString rt.lower every2 = NormString rt.lower every →
          NormString rt.lower atExpr2 = NormString rt.lower atExpr →
            ParseTime rt jobName every2 atExpr2 dayOfTheMonth timezone
              = ParseTime rt jobName every atExpr dayOfTheMonth timezone)
      ∧ ∀ every2 atExpr2 : Str,
          LayoutVariant rt.lower every every2 → LayoutVariant rt.lower atExpr atExpr2 →
            ParseTime rt jobName every2 atExpr2 dayOfTheMonth timezone
              = ParseTime rt jobName every atExpr dayOfTheMonth timezone := by
  refine ⟨?_, ?_, ?_⟩
  · simp only [ParseTime, NormString_idem rt.lower hlower]
  · intro every2 atExpr2 h1 h2
    simp only [ParseTime, h1, h2]
  · intro every2 atExpr2 h1 h2
    have e1 := NormString_of_variant rt.lower hws _ _ h1
    have e2 := NormString_of_variant rt.lower hws _ _ h2
    simp only [ParseTime, e1, e2]

/-- A worked case of C5: `5 Minutes` and `  5   minutes `. -/
theorem ParseTime_through_NormString_witness :
    (∀ c, ToLowerRune exampleRuntime.lower (ToLowerRune exampleRuntime.lower c)
        = ToLowerRune exampleRuntime.lower c)
      ∧ (∀ c, IsSpace c = true → IsSpace (ToLowerRune exampleRuntime.lower c) = true)
      ∧ LayoutVariant exampleRuntime.lower "5 Minutes".toList "  5   minutes ".toList
      ∧ ParseTime exampleRuntime "JOB_NAME".toList "5 Minutes".toList "__DEFAULT__".toList 0
          .Local
        = ParseTime exampleRuntime "JOB_NAME".toList
            (NormString exampleRuntime.lower "5 Minutes".toList)
            (NormString exampleRuntime.lower "__DEFAULT__".toList) 0 .Local
      ∧ ParseTime exampleRuntime "JOB_NAME".toList "  5   minutes ".toList
          " __default__".toList 0 .Local
        = ParseTime exampleRuntime "JOB_NAME".toList "5 Minutes".toList "__DEFAULT__".toList 0
            .Local
      ∧ ParseTime exampleRuntime "JOB_NAME".toList "  5   minutes ".toList
          "__DEFAULT__".toList 0 .Local
        = ParseTime exampleRuntime "JOB_NAME".toList "5 Minutes".toList "__DEFAULT__".toList 0
            .Local :=
  ⟨exampleRuntime_lower_idem, exampleRuntime_lower_white, exampleVariant,
    (ParseTime_through_NormString exampleRuntime "JOB_NAME".toList "5 Minutes".toList
      "__DEFAULT__".toList 0 .Local exampleRuntime_lower_idem exampleRuntime_lower_white).1,
    (ParseTime_through_NormString exampleRuntime "JOB_NAME".toList "5 Minutes".toList
      "__DEFAULT__".toList 0 .Local exampleRuntime_lower_idem
      exampleRuntime_lower_white).2.1 _ _ (by decide) (by decide),
    (ParseTime_through_NormString exampleRuntime "JOB_NAME".toList "5 Minutes".toList
      "__DEFAULT__".toList 0 .Local exampleRuntime_lower_idem
      exampleRuntime_lower_white).2.2 _ _ exampleVariant
      (LayoutVariant.letterCase _ _ rfl)⟩

/-! ## The multiplier of a built schedule -/

/-- C11 fails as stated: `strconv.Atoi` accepts 9007199254740993, and its
64-bit product with `time.Minute` wraps to one minute, so that `ParseTime`
builds for `9007199254740993 minutes` the very schedule it builds for
`1 minutes`: that schedule does not have the multiplier 9007199254740993. -/
theorem ParseTime_multiplier_wraps_to_one :
    Atoi "9007199254740993".toList = some 9007199254740993
      ∧ "minutes".toList ∈ EveryVocabulary
      ∧ ParseTime exampleRuntime "J".toList "9007199254740993 minutes".toList
          "__default__".toList 1 .Local
        = .ok { location := .Local, calls := [.EveryDuration (1 * Minute), .StartAt 0] }
      ∧ ParseTime exampleRuntime "J".toList "9007199254740993 minutes".toList
          "__default__".toList 1 .Local
        = ParseTime exampleRuntime "J".toList "1 minutes".toList "__default__".toList 1 .Local
      ∧ (9007199254740993 : Int) * Minute ≠ 1 * Minute := by
  decide

/-- C11, as amended: the multiplier defaults to 1. With a case table that turns
no rune into white space, `ParseTime` gives on a non-empty unit text `u`
without white space the same result (the same schedule or the same error
message) as on `"1 " + u`; and for an integer `n` that `strconv.Atoi` accepts
and a valid unit `u`, the schedule built from `n u` is configured with `Every(n)`
when `u` is a unit from the day on, and with the interval of `n` times the
length of the unit when `u` is second, minute or hour and that product lies
within the signed 64-bit range; the schedule is built whenever no `at` is
given. -/
theorem ParseTime_default_multiplier (rt : Runtime) (jobName atExpr : Str)
    (dayOfTheMonth : Int) (timezone : Location)
    (hspace : ∀ c, IsSpace c = false → IsSpace (ToLowerRune rt.lower c) = false) :
    (∀ u : Str, u ≠ [] → (∀ c ∈ u, IsSpace c = false) →
        ParseTime rt jobName u atExpr dayOfTheMonth timezone
          = ParseTime rt jobName ("1 ".toList ++ u) atExpr dayOfTheMonth timezone)
      ∧ ∀ (nstr u : Str) (n : Int), Atoi nstr = some n → u ∈ EveryVocabulary →
          (∀ s, ParseTime rt jobName (nstr ++ ' ' :: u) atExpr dayOfTheMonth timezone = .ok s →
              (u ∉ SubDayUnits → s.calls.head? = some (Call.EveryInt n))
                ∧ (u ∈ SubDayUnits → -(2 : Int) ^ 63 ≤ n * UnitLength u →
                    n * UnitLength u < (2 : Int) ^ 63 →
                    s.calls.head? = some (Call.EveryDuration (n * UnitLength u))))
            ∧ (NormString rt.lower atExpr = "__default__".toList →
              ∃ s, ParseTime rt jobName (nstr ++ ' ' :: u) atExpr dayOfTheMonth timezone
                = .ok s) := by
  constructor
  · intro u hune hu
    have hlu : ∀ c ∈ ToLower rt.lower u, IsSpace c = false := by
      intro c hc
      obtain ⟨x, hx, hxc⟩ := List.mem_map.mp hc
      rw [← hxc]
      exact hspace x (hu x hx)
    have hlune : ToLower rt.lower u ≠ [] := by
      unfold ToLower
      simpa using hune
    have h1 : NormString rt.lower u = ToLower rt.lower u := Normalise_of_no_space _ hlu
    have hone : ∀ c ∈ "1".toList, IsSpace c = false := by decide
    have h2 : NormString rt.lower ("1 ".toList ++ u)
        = "1".toList ++ ' ' :: ToLower rt.lower u := by
      have hsplit : "1 ".toList ++ u = "1".toList ++ ' ' :: u := rfl
      unfold NormString
      rw [hsplit, ToLower_append_space]
      exact Normalise_append_space "1".toList _ hone (by decide) hlu hlune
    have hnosp : ' ' ∉ ToLower rt.lower u := by
      intro hmem
      have := hlu ' ' hmem
      revert this
      decide
    have hp1 : ParseMultiplier jobName (NormString rt.lower u)
        = .ok (1, ToLower rt.lower u) := by
      rw [h1]
      exact ParseMultiplier_unit jobName _ hnosp
    have hp2 : ParseMultiplier jobName (NormString rt.lower ("1 ".toList ++ u))
        = .ok (1, ToLower rt.lower u) := by
      rw [h2]
      exact ParseMultiplier_count jobName "1".toList _ 1 (by decide)
    rw [ParseTime_of_multiplier rt jobName u atExpr dayOfTheMonth timezone 1 _ hp1,
      ParseTime_of_multiplier rt jobName _ atExpr dayOfTheMonth timezone 1 _ hp2]
  · intro nstr u n hn hu
    have hpm : ParseMultiplier jobName (NormString rt.lower (nstr ++ ' ' :: u))
        = .ok (n, u) := by
      rw [NormString_count_unit rt.lower nstr u n hn hu]
      exact ParseMultiplier_count jobName nstr u n hn
    refine ⟨fun s hs => ?_,
      fun hat => ParseTime_ok_of_default rt jobName _ atExpr dayOfTheMonth timezone n u hpm hu
        hat⟩
    have hhead := ParseTime_ok_head rt jobName _ atExpr dayOfTheMonth timezone n u s hpm hu hs
    constructor
    · intro hsub
      rw [if_neg hsub] at hhead
      exact hhead
    · intro hsub h0 h1
      rw [if_pos hsub, MulDuration_of_int64 n (UnitLength u) h0 h1] at hhead
      exact hhead

/-- A worked case of C11: `Hour` against `1 Hour`, and `15 second`. -/
theorem ParseTime_default_multiplier_witness :
    (∀ c, IsSpace c = false → IsSpace (ToLowerRune exampleRuntime.lower c) = false)
      ∧ ParseTime exampleRuntime "JOB_NAME".toList "Hour".toList "__default__".toList 0 .Local
        = ParseTime exampleRuntime "JOB_NAME".toList ("1 ".toList ++ "Hour".toList)
            "__default__".toList 0 .Local
      ∧ (Atoi "15".toList = some 15 ∧ "second".toList ∈ EveryVocabulary
          ∧ "second".toList ∈ SubDayUnits
          ∧ -(2 : Int) ^ 63 ≤ 15 * UnitLength "second".toList
          ∧ 15 * UnitLength "second".toList < (2 : Int) ^ 63)
      ∧ ParseTime exampleRuntime "JOB_NAME".toList ("15".toList ++ ' ' :: "second".toList)
          "__default__".toList 0 .Local
        = .ok { location := .Local, calls := [.EveryDuration (15 * Second), .StartAt 0] }
      ∧ List.head? [Call.EveryDuration (15 * Second), Call.StartAt 0]
        = some (Call.EveryDuration (15 * UnitLength "second".toList)) :=
  ⟨exampleRuntime_lower_space,
    (ParseTime_default_multiplier exampleRuntime "JOB_NAME".toList "__default__".toList 0
      .Local exampleRuntime_lower_space).1 "Hour".toList (by decide) (by decide),
    ⟨by decide, by decide, by decide, by decide, by decide⟩,
    by decide,
    (((ParseTime_default_multiplier exampleRuntime "JOB_NAME".toList "__default__".toList 0
      .Local exampleRuntime_lower_space).2 "15".toList "second".toList 15 (by decide)
      (by decide)).1
      { location := .Local, calls := [.EveryDuration (15 * Second), .StartAt 0] }
      (by decide)).2 (by decide) (by decide) (by decide)⟩

end Rept
